import Mathlib

/-!
# BamM `bamRead.c`: mapped reads, their two chains, and their rendering

A shallow embedding of `src/c/bamRead.c`.

* C strings are lists of characters (the bytes before the terminator); a
  nullable `char *` is an `Option`.
* Records live in a store of cells addressed by index; a freed cell is `none`.
* Every operation with no defined outcome (a read outside the bytes of the
  classification table, a dereference of a dead record, a double `free`)
  yields `none`. Loops over a chain carry a fuel bound, and `none` is also the
  answer when the fuel runs out.
* Two steps that the C standard leaves open have one outcome in the compiled
  program and are modelled with it: a column index outside 0..1 that stays
  inside the bytes of the table reads the neighbouring entry, and `%s` given a
  null pointer prints `(null)`.
-/

namespace BamRead

/-! ## Classification table -/

/-- The C string type: the characters before the terminator. -/
abbrev CStr := List Char

/-- The string terminator. -/
def NUL : Char := Char.ofNat 0

/-- `static const char MITEXT[6][2][12]`: every entry is an array of 12 bytes,
eleven characters and the terminator. -/
def MITEXT : List (List (List Char)) :=
  [["p_PR_PM_UG;\x00".toList,    -- FIR, U
    "p_PR_PM_PG;\x00".toList],   -- FIR, P
   ["p_PR_PM_UG;\x00".toList,    -- SEC, U
    "p_PR_PM_PG;\x00".toList],   -- SEC, P
   ["p_PR_UM_NG;\x00".toList,    -- SNGL_FIR, U
    "p_PR_EM_NG;\x00".toList],   -- SNGL_FIR, P
   ["p_PR_UM_NG;\x00".toList,    -- SNGL_SEC, U
    "p_PR_EM_NG;\x00".toList],   -- SNGL_SEC, P
   ["p_UR_NM_NG;\x00".toList,    -- SNGL, U
    "p_UR_EM_NG;\x00".toList],   -- SNGL, P
   ["p_ER_NM_NG;\x00".toList,    -- ERR, U
    "p_ER_NM_NG;\x00".toList]]   -- ERR, P

/-- Whether the index triple lies inside `MITEXT[6][2][12]`. -/
def inTable (rpi paired : Int) (i : Nat) : Prop :=
  0 ≤ rpi ∧ rpi < 6 ∧ 0 ≤ paired ∧ paired < 2 ∧ i < 12

instance (rpi paired : Int) (i : Nat) : Decidable (inTable rpi paired i) := by
  unfold inTable; infer_instance

/-- The byte at offset `off` from the start of `MITEXT`. The table is laid
out row after row, and within a row the unpaired entry before the paired one,
so the byte is `MITEXT[off / 24][off / 12 % 2][off % 12]`. -/
def MITEXT_byte (off : Nat) : Option Char :=
  (MITEXT[off / 24]?).bind fun row => (row[off / 12 % 2]?).bind fun e => e[off % 12]?

/-- Whether the read `MITEXT[rpi][paired][i]` has a value: `rpi` names one of
the six rows, and the byte addressed, at offset `(rpi * 2 + paired) * 12 + i`
from the start of the table, is one of its 144 bytes. -/
def inObject (rpi paired : Int) (i : Nat) : Prop :=
  0 ≤ rpi ∧ rpi < 6
    ∧ 0 ≤ (rpi * 2 + paired) * 12 + (i : Int) ∧ (rpi * 2 + paired) * 12 + (i : Int) < 144

instance (rpi paired : Int) (i : Nat) : Decidable (inObject rpi paired i) := by
  unfold inObject; infer_instance

/-- The read `MITEXT[rpi][paired][i]`. For a row 0..5 the byte is taken at its
offset in the table, so a column index outside 0..1 reads a neighbouring entry
as long as it stays inside the table (`MITEXT[1][-1]` is `MITEXT[0][1]`);
a row outside 0..5 and a byte outside the table have no value. -/
def MITEXT_at (rpi paired : Int) (i : Nat) : Option Char :=
  if inObject rpi paired i then
    MITEXT_byte ((rpi * 2 + paired) * 12 + (i : Int)).toNat
  else none

/-- The body of the `for` loop of `getMITEXT`, with `n` iterations left at
index `i`: `buffer[i] = MITEXT[rpi][paired][i]`. A write past the end of the
buffer is undefined. -/
def getMITEXT_loop (rpi paired : Int) : Nat → Nat → List Char → Option (List Char)
  | 0, _, buffer => some buffer
  | n + 1, i, buffer =>
    match MITEXT_at rpi paired i with
    | none => none
    | some c =>
      if i < buffer.length then getMITEXT_loop rpi paired n (i + 1) (buffer.set i c)
      else none

/-- `void getMITEXT(int rpi, int paired, char * buffer)`: twelve iterations
from `i = 0`. The result is the buffer after the call. -/
def getMITEXT (rpi paired : Int) (buffer : List Char) : Option (List Char) :=
  getMITEXT_loop rpi paired 12 0 buffer

/-- The table indices that `getMITEXT` reads, in order, up to and including
the first one that has no value (where the behaviour stops being defined). -/
def getMITEXT_reads (rpi paired : Int) : Nat → Nat → List (Int × Int × Nat)
  | 0, _ => []
  | n + 1, i =>
    if inObject rpi paired i then (rpi, paired, i) :: getMITEXT_reads rpi paired n (i + 1)
    else [(rpi, paired, i)]

/-- The C string held in a character buffer: the bytes before the first
terminator. -/
def cstr (buffer : List Char) : CStr := buffer.takeWhile (fun c => c != NUL)

/-! ## printf -/

/-- An argument handed to a printf-family call. -/
inductive Arg
  | str (s : Option CStr)
  | int (n : Int)
  deriving DecidableEq, Repr

/-- The decimal text of an `int`, as `%d` prints it. -/
def decimal (n : Int) : CStr :=
  (if n < 0 then ['-'] else []) ++ Nat.toDigits 10 n.natAbs

/-- What `%s` prints for its argument: the string, or `(null)` for a null
pointer, as the C library the program runs with does. -/
def printedString (s : Option CStr) : CStr :=
  match s with
  | some t => t
  | none => "(null)".toList

/-- The text a printf-family call produces from a format and its arguments.
Handled directives: `%s`, `%d` and `%%`. A directive without a matching
argument and any other directive are undefined. Surplus arguments are
ignored. -/
def cformat : List Char → List Arg → Option CStr
  | [], _ => some []
  | [c], _ => if c = '%' then none else some [c]
  | c :: d :: fmt, args =>
    if c = '%' then
      if d = 's' then
        match args with
        | Arg.str s :: rest => (cformat fmt rest).map (fun t => printedString s ++ t)
        | _ => none
      else if d = 'd' then
        match args with
        | Arg.int n :: rest => (cformat fmt rest).map (fun t => decimal n ++ t)
        | _ => none
      else if d = '%' then (cformat fmt args).map (fun t => '%' :: t)
      else none
    else (cformat (d :: fmt) args).map (fun t => c :: t)

/-- The stream a `FILE *` designates. -/
inductive FILE
  | stdout
  | stream (n : Nat)
  deriving DecidableEq, Repr

/-- `sprintf(buffer, fmt, ...)`: the text and its terminator overwrite the
start of the buffer, and the number of characters (terminator excluded) is
returned. Writing past the end of the buffer is undefined. -/
def sprintf (buffer : List Char) (fmt : List Char) (args : List Arg) :
    Option (List Char × Int) :=
  match cformat fmt args with
  | none => none
  | some t =>
    if t.length < buffer.length then
      some (t ++ NUL :: buffer.drop (t.length + 1), (t.length : Int))
    else none

/-- The three format macros that `bamRead.c` takes from `bamRead.h`. -/
structure Formats where
  HEADER_FORMAT : List Char
  FASTA_FORMAT : List Char
  FASTQ_FORMAT : List Char
  deriving DecidableEq, Repr

/-- Modelled from the spec: the format macros of `bamRead.h`, which is not
among the sources. The spec (section 6) gives the header-only line as a
`>`-or-`@`-prefixed line holding group name, status tag and sequence id (in
the order the code passes them); FASTA as a header line and the sequence line;
FASTQ as an `@` header line, the sequence line, a lone `+` separator line and
the quality line. The tag ends in `;` and is followed directly by the id.
`headerMark` is the prefix of the header-only line, `>` or `@`. -/
def specFormats (headerMark : Char) : Formats where
  HEADER_FORMAT := headerMark :: "%s;%s%s\n".toList
  FASTA_FORMAT := ">%s;%s%s\n%s\n".toList
  FASTQ_FORMAT := "@%s;%s%s\n%s\n+\n%s\n".toList

/-! ## Records and the store -/

/-- The address of a record: the index of its cell in the store. -/
abbrev Ptr := Nat

/-- `BM_mappedRead`. The strings are the record's own copies. `seqId` is never
null (the constructor duplicates a non-null string); `seq` and `qual` may be.
`idLen`, `seqLen`, `qualLen` and `group` are `uint16_t`, `rpi` is `uint8_t`. -/
structure BM_mappedRead where
  seqId : CStr
  seq : Option CStr
  qual : Option CStr
  idLen : Fin 65536
  seqLen : Fin 65536
  qualLen : Fin 65536
  rpi : Fin 256
  group : Fin 65536
  nextRead : Option Ptr
  partnerRead : Option Ptr
  nextPrintingRead : Option Ptr
  deriving DecidableEq, Repr

/-- The store: cell `p` holds the record at address `p`, or `none` once it
has been freed. -/
abbrev Heap := List (Option BM_mappedRead)

/-- Reading through a pointer: `none` when the address was never allocated or
has been freed. -/
def deref (h : Heap) (p : Ptr) : Option BM_mappedRead := (h[p]?).join

/-- `BM_mappedRead * makeMappedRead(seqId, seq, qual, idLen, seqLen, qualLen,
rpi, group, prev_MR)`. The new record takes the next fresh address; allocation
is taken to succeed. The predecessor, when given, has to be a live record. The
result is the store after the call and the address returned. -/
def makeMappedRead (h : Heap) (seqId : CStr) (seq qual : Option CStr)
    (idLen seqLen qualLen : Fin 65536) (rpi : Fin 256) (group : Fin 65536)
    (prev_MR : Option Ptr) : Option (Heap × Ptr) :=
  let MR : Ptr := h.length
  let r : BM_mappedRead :=
    { seqId := seqId
      seq := match seq with
        | some s => some s
        | none => none
      rpi := rpi
      idLen := idLen
      seqLen := seqLen
      qualLen := qualLen
      group := group
      qual := match qual with
        | some q => some q
        | none => none
      nextRead := none
      partnerRead := none
      nextPrintingRead := none }
  match prev_MR with
  | none => some (h ++ [some r], MR)
  | some p =>
    match deref h p with
    | none => none
    | some pr => some ((h ++ [some r]).set p (some { pr with nextRead := some MR }), MR)

/-- `getNextMappedRead(MR)`: `MR->nextRead`. -/
def getNextMappedRead (h : Heap) (MR : Ptr) : Option (Option Ptr) :=
  (deref h MR).map fun r => r.nextRead

/-- `getNextPrintRead(MR)`: `MR->nextPrintingRead`. -/
def getNextPrintRead (h : Heap) (MR : Ptr) : Option (Option Ptr) :=
  (deref h MR).map fun r => r.nextPrintingRead

/-- `setNextPrintRead(baseMR, nextMR)`: `baseMR->nextPrintingRead = nextMR`. -/
def setNextPrintRead (h : Heap) (baseMR : Ptr) (nextMR : Option Ptr) : Option Heap :=
  match deref h baseMR with
  | none => none
  | some r => some (h.set baseMR (some { r with nextPrintingRead := nextMR }))

/-- `getPartner(MR)`: the partner, or the null pointer after a diagnostic line
on standard output. The result is the pointer returned and the text written to
standard output. -/
def getPartner (h : Heap) (MR : Ptr) : Option (Option Ptr × CStr) :=
  match deref h MR with
  | none => none
  | some r =>
    match r.partnerRead with
    | some p => some (some p, [])
    | none =>
      (cformat "1. nein partner %d\n".toList [Arg.int (r.rpi.val : Int)]).map
        fun t => (none, t)

/-- `partnerInSameGroup(MR)`: the C truth value of
`(MR->partnerRead)->group == MR->group`, or 0 after a diagnostic line when
there is no partner. The result is the value returned and the text written to
standard output. -/
def partnerInSameGroup (h : Heap) (MR : Ptr) : Option (Int × CStr) :=
  match deref h MR with
  | none => none
  | some r =>
    match r.partnerRead with
    | some p =>
      match deref h p with
      | none => none
      | some pr => some (if pr.group = r.group then 1 else 0, [])
    | none =>
      (cformat "2. nein partner %d\n".toList [Arg.int (r.rpi.val : Int)]).map
        fun t => (0, t)

/-- `destroyMappedReads(root_MR)`: the loop frees the record at `root_MR`
together with its strings and goes on to the `nextRead` read before the free.
Freeing a cell that is not live is undefined. The result is the store after
the call and the records freed, in order. -/
def destroyMappedReads : Nat → Heap → Option Ptr → Option (Heap × List Ptr)
  | _, h, none => some (h, [])
  | 0, _, some _ => none
  | fuel + 1, h, some root_MR =>
    match deref h root_MR with
    | none => none
    | some r =>
      let tmp_MR := r.nextRead
      match destroyMappedReads fuel (h.set root_MR none) tmp_MR with
      | none => none
      | some (h', freed) => some (h', root_MR :: freed)

/-- `destroyPrintChain(root_MR)`: as `destroyMappedReads`, following
`nextPrintingRead`. -/
def destroyPrintChain : Nat → Heap → Option Ptr → Option (Heap × List Ptr)
  | _, h, none => some (h, [])
  | 0, _, some _ => none
  | fuel + 1, h, some root_MR =>
    match deref h root_MR with
    | none => none
    | some r =>
      let tmp_MR := r.nextPrintingRead
      match destroyPrintChain fuel (h.set root_MR none) tmp_MR with
      | none => none
      | some (h', freed) => some (h', root_MR :: freed)

/-! ## Rendering -/

/-- `char MI_buffer[12] = ""`: twelve zero bytes. -/
def MI_buffer0 : List Char := List.replicate 12 NUL

/-- `printMappedRead(MR, f, groupName, headerOnly, pairedOutput)`. The result
is the stream written to (standard output for a null `f`) and the text written
to it. -/
def printMappedRead (F : Formats) (h : Heap) (MR : Ptr) (f : Option FILE)
    (groupName : CStr) (headerOnly pairedOutput : Int) : Option (FILE × CStr) :=
  let f := match f with
    | none => FILE.stdout
    | some s => s
  match deref h MR with
  | none => none
  | some r =>
    match getMITEXT (r.rpi.val : Int) pairedOutput MI_buffer0 with
    | none => none
    | some MI_buffer =>
      if headerOnly ≠ 0 then
        (cformat F.HEADER_FORMAT
          [Arg.str (some groupName), Arg.str (some (cstr MI_buffer)),
           Arg.str (some r.seqId)]).map fun t => (f, t)
      else
        match r.qual with
        | some q =>
          (cformat F.FASTQ_FORMAT
            [Arg.str (some groupName), Arg.str (some (cstr MI_buffer)),
             Arg.str (some r.seqId), Arg.str r.seq, Arg.str (some q)]).map fun t => (f, t)
        | none =>
          (cformat F.FASTA_FORMAT
            [Arg.str (some groupName), Arg.str (some (cstr MI_buffer)),
             Arg.str (some r.seqId), Arg.str r.seq]).map fun t => (f, t)

/-- `sprintMappedRead(MR, buffer, count, groupName, headerOnly, pairedOutput)`.
The result is the buffer after the call and the value stored in `*count`. -/
def sprintMappedRead (F : Formats) (h : Heap) (MR : Ptr) (buffer : List Char)
    (groupName : CStr) (headerOnly pairedOutput : Int) : Option (List Char × Int) :=
  match deref h MR with
  | none => none
  | some r =>
    match getMITEXT (r.rpi.val : Int) pairedOutput MI_buffer0 with
    | none => none
    | some MI_buffer =>
      if headerOnly ≠ 0 then
        sprintf buffer F.HEADER_FORMAT
          [Arg.str (some groupName), Arg.str (some (cstr MI_buffer)),
           Arg.str (some r.seqId)]
      else
        match r.qual with
        | some q =>
          sprintf buffer F.FASTQ_FORMAT
            [Arg.str (some groupName), Arg.str (some (cstr MI_buffer)),
             Arg.str (some r.seqId), Arg.str r.seq, Arg.str (some q)]
        | none =>
          sprintf buffer F.FASTA_FORMAT
            [Arg.str (some groupName), Arg.str (some (cstr MI_buffer)),
             Arg.str (some r.seqId), Arg.str r.seq]

/-- The first `while` loop of `printMappedReads` (header lines). `MI_buffer`
is the one buffer declared before the loops. The result is the text written. -/
def printMappedReads_headers (F : Formats) (groupNames : List CStr) (pairedOutput : Int) :
    Nat → Heap → Option Ptr → List Char → Option CStr
  | _, _, none, _ => some []
  | 0, _, some _, _ => none
  | fuel + 1, h, some MR, MI_buffer =>
    match deref h MR with
    | none => none
    | some r =>
      match getMITEXT (r.rpi.val : Int) pairedOutput MI_buffer with
      | none => none
      | some MI_buffer =>
        match groupNames[r.group.val]? with
        | none => none
        | some groupName =>
          match cformat F.HEADER_FORMAT
              [Arg.str (some groupName), Arg.str (some (cstr MI_buffer)),
               Arg.str (some r.seqId)] with
          | none => none
          | some t =>
            (printMappedReads_headers F groupNames pairedOutput fuel h r.nextRead
              MI_buffer).map fun rest => t ++ rest

/-- The second `while` loop of `printMappedReads` (FASTQ records): the
quality of every node is passed to the format without a test. -/
def printMappedReads_fastq (F : Formats) (groupNames : List CStr) (pairedOutput : Int) :
    Nat → Heap → Option Ptr → List Char → Option CStr
  | _, _, none, _ => some []
  | 0, _, some _, _ => none
  | fuel + 1, h, some MR, MI_buffer =>
    match deref h MR with
    | none => none
    | some r =>
      match getMITEXT (r.rpi.val : Int) pairedOutput MI_buffer with
      | none => none
      | some MI_buffer =>
        match groupNames[r.group.val]? with
        | none => none
        | some groupName =>
          match cformat F.FASTQ_FORMAT
              [Arg.str (some groupName), Arg.str (some (cstr MI_buffer)),
               Arg.str (some r.seqId), Arg.str r.seq, Arg.str r.qual] with
          | none => none
          | some t =>
            (printMappedReads_fastq F groupNames pairedOutput fuel h r.nextRead
              MI_buffer).map fun rest => t ++ rest

/-- The third `while` loop of `printMappedReads` (FASTA records): the quality
of the nodes is not looked at. -/
def printMappedReads_fasta (F : Formats) (groupNames : List CStr) (pairedOutput : Int) :
    Nat → Heap → Option Ptr → List Char → Option CStr
  | _, _, none, _ => some []
  | 0, _, some _, _ => none
  | fuel + 1, h, some MR, MI_buffer =>
    match deref h MR with
    | none => none
    | some r =>
      match getMITEXT (r.rpi.val : Int) pairedOutput MI_buffer with
      | none => none
      | some MI_buffer =>
        match groupNames[r.group.val]? with
        | none => none
        | some groupName =>
          match cformat F.FASTA_FORMAT
              [Arg.str (some groupName), Arg.str (some (cstr MI_buffer)),
               Arg.str (some r.seqId), Arg.str r.seq] with
          | none => none
          | some t =>
            (printMappedReads_fasta F groupNames pairedOutput fuel h r.nextRead
              MI_buffer).map fun rest => t ++ rest

/-- `printMappedReads(root_MR, f, groupNames, headersOnly, pairedOutput)`.
With `headersOnly` zero the quality of the head is read before any loop test,
so a null head is undefined there. The result is the stream written to and the
text written to it. -/
def printMappedReads (F : Formats) (fuel : Nat) (h : Heap) (root_MR : Option Ptr)
    (f : Option FILE) (groupNames : List CStr) (headersOnly pairedOutput : Int) :
    Option (FILE × CStr) :=
  let f := match f with
    | none => FILE.stdout
    | some s => s
  if headersOnly ≠ 0 then
    (printMappedReads_headers F groupNames pairedOutput fuel h root_MR MI_buffer0).map
      fun t => (f, t)
  else
    match root_MR with
    | none => none
    | some MR =>
      match deref h MR with
      | none => none
      | some r =>
        match r.qual with
        | some _ =>
          (printMappedReads_fastq F groupNames pairedOutput fuel h root_MR MI_buffer0).map
            fun t => (f, t)
        | none =>
          (printMappedReads_fasta F groupNames pairedOutput fuel h root_MR MI_buffer0).map
            fun t => (f, t)

/-! ## Walking and building chains -/

/-- Walking a chain with an accessor (`getNextMappedRead` or
`getNextPrintRead`) from a start pointer until the null pointer: the records
visited, in order. -/
def walkChain (next : Heap → Ptr → Option (Option Ptr)) (h : Heap) :
    Nat → Option Ptr → Option (List Ptr)
  | _, none => some []
  | 0, some _ => none
  | fuel + 1, some p =>
    match next h p with
    | none => none
    | some q => (walkChain next h fuel q).map fun ps => p :: ps

/-- The arguments of one `makeMappedRead` call, the predecessor apart. -/
structure ReadArgs where
  seqId : CStr
  seq : Option CStr
  qual : Option CStr
  idLen : Fin 65536
  seqLen : Fin 65536
  qualLen : Fin 65536
  rpi : Fin 256
  group : Fin 65536
  deriving DecidableEq, Repr

/-- A run of `makeMappedRead` calls, each after the first passing the record
returned by the call before it as predecessor. The result is the final store
and the addresses returned, in call order. -/
def makeChain : Heap → Option Ptr → List ReadArgs → Option (Heap × List Ptr)
  | h, _, [] => some (h, [])
  | h, prev_MR, a :: rest =>
    match makeMappedRead h a.seqId a.seq a.qual a.idLen a.seqLen a.qualLen a.rpi a.group
        prev_MR with
    | none => none
    | some (h1, MR) =>
      match makeChain h1 (some MR) rest with
      | none => none
      | some (h2, ps) => some (h2, MR :: ps)

/-- The record a `makeMappedRead` call with these arguments creates. -/
def ReadArgs.record (a : ReadArgs) : BM_mappedRead :=
  { seqId := a.seqId, seq := a.seq, qual := a.qual, idLen := a.idLen, seqLen := a.seqLen,
    qualLen := a.qualLen, rpi := a.rpi, group := a.group, nextRead := none,
    partnerRead := none, nextPrintingRead := none }

/-- The cells a run of `makeMappedRead` calls appends to a store whose next
fresh address is `base`: each record points to the next one, the last to
nothing. -/
def chainCells (base : Nat) : List ReadArgs → List (Option BM_mappedRead)
  | [] => []
  | [a] => [some a.record]
  | a :: b :: rest =>
    some { a.record with nextRead := some (base + 1) } :: chainCells (base + 1) (b :: rest)

/-- The teardown loop for an arbitrary link field; `destroyMappedReads` and
`destroyPrintChain` are its instances for `nextRead` and `nextPrintingRead`. -/
def destroyChain (link : BM_mappedRead → Option Ptr) :
    Nat → Heap → Option Ptr → Option (Heap × List Ptr)
  | _, h, none => some (h, [])
  | 0, _, some _ => none
  | fuel + 1, h, some root_MR =>
    match deref h root_MR with
    | none => none
    | some r =>
      match destroyChain link fuel (h.set root_MR none) (link r) with
      | none => none
      | some (h2, freed) => some (h2, root_MR :: freed)

/-- The accessor that reads the link field `link`. -/
def getLink (link : BM_mappedRead → Option Ptr) (h : Heap) (MR : Ptr) : Option (Option Ptr) :=
  (deref h MR).map link

/-- The store after the cells at the addresses `ps` have been freed. -/
def freeAll (h : Heap) (ps : List Ptr) : Heap :=
  ps.foldl (fun h2 p => h2.set p none) h

/-! ## Texts of single nodes -/

/-- The entry `MITEXT[rpi][paired]` as a whole (empty outside the table). -/
def MITEXT_row (rpi paired : Int) : List Char :=
  ((MITEXT[rpi.toNat]?).bind fun row => row[paired.toNat]?).getD []

/-- The entry of the table that the read `MITEXT[rpi][paired]` falls on: entry
number `rpi * 2 + paired` in memory order, which is `MITEXT[rpi][paired]`
itself when `paired` is 0 or 1. -/
def MITEXT_entry (rpi paired : Int) : List Char :=
  MITEXT_row (((rpi * 2 + paired).toNat / 2 : Nat) : Int)
    (((rpi * 2 + paired).toNat % 2 : Nat) : Int)

/-- The text one iteration of the header loop of `printMappedReads` writes for
a node: `HEADER_FORMAT` applied to the group name of the node, its tag and its
id. -/
def nodeHeader (F : Formats) (groupNames : List CStr) (pairedOutput : Int)
    (r : BM_mappedRead) : Option CStr :=
  match getMITEXT (r.rpi.val : Int) pairedOutput MI_buffer0 with
  | none => none
  | some MI_buffer =>
    match groupNames[r.group.val]? with
    | none => none
    | some groupName =>
      cformat F.HEADER_FORMAT
        [Arg.str (some groupName), Arg.str (some (cstr MI_buffer)), Arg.str (some r.seqId)]

/-- The text of a node in the FASTQ shape: `FASTQ_FORMAT` applied to group
name, tag, id, the sequence and the quality of the node. -/
def nodeFastq (F : Formats) (groupNames : List CStr) (pairedOutput : Int)
    (r : BM_mappedRead) : Option CStr :=
  match getMITEXT (r.rpi.val : Int) pairedOutput MI_buffer0 with
  | none => none
  | some MI_buffer =>
    match groupNames[r.group.val]? with
    | none => none
    | some groupName =>
      cformat F.FASTQ_FORMAT
        [Arg.str (some groupName), Arg.str (some (cstr MI_buffer)), Arg.str (some r.seqId),
         Arg.str r.seq, Arg.str r.qual]

/-- The text of a node in the FASTA shape: `FASTA_FORMAT` applied to group
name, tag, id and the sequence of the node; the quality plays no part. -/
def nodeFasta (F : Formats) (groupNames : List CStr) (pairedOutput : Int)
    (r : BM_mappedRead) : Option CStr :=
  match getMITEXT (r.rpi.val : Int) pairedOutput MI_buffer0 with
  | none => none
  | some MI_buffer =>
    match groupNames[r.group.val]? with
    | none => none
    | some groupName =>
      cformat F.FASTA_FORMAT
        [Arg.str (some groupName), Arg.str (some (cstr MI_buffer)), Arg.str (some r.seqId),
         Arg.str r.seq]

/-- The texts of the nodes one after the other; undefined as soon as one of
them is. -/
def concatTexts : List (Option CStr) → Option CStr
  | [] => some []
  | none :: _ => none
  | some t :: rest => (concatTexts rest).map fun u => t ++ u

/-! ## Example data -/

/-- The record of the round-trip example: id `r1`, sequence `ACGT`, quality
`!!!!`, role 0, group 0. -/
def exRead : BM_mappedRead :=
  { seqId := "r1".toList, seq := some "ACGT".toList, qual := some "!!!!".toList,
    idLen := 2, seqLen := 4, qualLen := 4, rpi := 0, group := 0,
    nextRead := none, partnerRead := none, nextPrintingRead := none }

/-- The example record with its quality absent. -/
def exReadNoQual : BM_mappedRead := { exRead with qual := none }

/-- The example record with its sequence absent, as `makeMappedRead` builds it
from a null `seq`. -/
def exReadNoSeq : BM_mappedRead := { exRead with seq := none }

/-- The arguments of two constructor calls. -/
def exArgs : List ReadArgs :=
  [{ seqId := "r1".toList, seq := some "ACGT".toList, qual := some "!!!!".toList,
     idLen := 2, seqLen := 4, qualLen := 4, rpi := 0, group := 0 },
   { seqId := "r2".toList, seq := none, qual := none,
     idLen := 7, seqLen := 0, qualLen := 9, rpi := 5, group := 3 }]

/-- A two-node chain whose head has no quality and whose second node has. -/
def exChainFastaHead : Heap :=
  [some { exReadNoQual with nextRead := some 1 },
   some { exRead with seqId := "r2".toList }]

/-- A two-node chain whose head has quality and whose second node has none. -/
def exChainFastqHead : Heap :=
  [some { exRead with nextRead := some 1 },
   some { exReadNoQual with seqId := "r2".toList }]

/-- A store of four records: an ingestion chain 0, 1 and a print chain 3, 2
over the other two records. -/
def exTwoChains : Heap :=
  [some { exRead with nextRead := some 1 },
   some { exReadNoQual with seqId := "r2".toList },
   some { exRead with seqId := "r3".toList },
   some { exReadNoQual with seqId := "r4".toList, nextPrintingRead := some 2 }]

/-! ## The form of a tag -/

/-- A printable character, as `isprint` has it in the C locale. -/
def printable (c : Char) : Prop := 32 ≤ c.toNat ∧ c.toNat ≤ 126

instance (c : Char) : Decidable (printable c) := by
  unfold printable; infer_instance

/-- The form `p_aR_bM_cG;` with its terminator, as the spec words it: twelve
bytes, `a` one of P, U, E and `b`, `c` each one of N, P, U, E. -/
def isTagEntry (e : List Char) : Prop :=
  match e with
  | [c0, c1, a, c3, c4, b, c6, c7, c, c9, c10, c11] =>
    c0 = 'p' ∧ c1 = '_' ∧ a ∈ ['P', 'U', 'E'] ∧ c3 = 'R' ∧ c4 = '_'
      ∧ b ∈ ['N', 'P', 'U', 'E'] ∧ c6 = 'M' ∧ c7 = '_'
      ∧ c ∈ ['N', 'P', 'U', 'E'] ∧ c9 = 'G' ∧ c10 = ';' ∧ c11 = NUL
  | _ => False

instance (e : List Char) : Decidable (isTagEntry e) := by
  unfold isTagEntry; split <;> infer_instance

/-! ## Building a print chain -/

/-- The run of calls `setNextPrintRead(r(i+1), r(i))` over the consecutive
records of a list: every record gets the one before it as print successor. -/
def setPrintReverse : Heap → List Ptr → Option Heap
  | h, a :: b :: rest =>
    match setNextPrintRead h b (some a) with
    | none => none
    | some h1 => setPrintReverse h1 (b :: rest)
  | h, _ => some h

/-- A record with its print successor blanked: everything `setNextPrintRead`
leaves alone. -/
def withoutPrintLink (r : BM_mappedRead) : BM_mappedRead :=
  { r with nextPrintingRead := none }

/-- A store of three records: 0 and 1 are partners in group 0, and 2 has
partner 0 but lies in group 7. -/
def exPartners : Heap :=
  [some { exRead with partnerRead := some 1 },
   some { exRead with seqId := "r2".toList, partnerRead := some 0 },
   some { exRead with seqId := "r3".toList, group := 7, partnerRead := some 0 }]

/-! ## Classification: lemmas -/

theorem take_succ_set {α : Type} (l : List α) (i : Nat) (a : α) (h : i < l.length) :
    (l.set i a).take (i + 1) = l.take i ++ [a] := by
  induction l generalizing i with
  | nil => simp at h
  | cons x xs ih =>
    cases i with
    | zero => simp
    | succ j =>
      have hj : j < xs.length := by simpa using h
      simp [ih j hj]

theorem getMITEXT_loop_row (rpi paired : Int) (row : List Char)
    (hrow : ∀ i, i < 12 → MITEXT_at rpi paired i = row[i]?) (hlen : row.length = 12) :
    ∀ (n i : Nat) (buffer : List Char), i + n = 12 → 12 ≤ buffer.length →
      getMITEXT_loop rpi paired n i buffer
        = some (buffer.take i ++ row.drop i ++ buffer.drop 12) := by
  intro n
  induction n with
  | zero =>
    intro i buffer hi hb
    have : i = 12 := by omega
    subst this
    simp [getMITEXT_loop, ← hlen]
  | succ n ih =>
    intro i buffer hi hb
    have hi12 : i < 12 := by omega
    have hib : i < buffer.length := by omega
    have hir : i < row.length := by omega
    rw [getMITEXT_loop, hrow i hi12, List.getElem?_eq_getElem hir]
    simp only [hib, if_true]
    rw [ih (i + 1) (buffer.set i row[i]) (by omega) (by simpa using hb)]
    congr 1
    have h1 : (buffer.set i row[i]).take (i + 1) = buffer.take i ++ [row[i]] :=
      take_succ_set buffer i row[i] hib
    have h2 : (buffer.set i row[i]).drop 12 = buffer.drop 12 :=
      List.drop_set_of_lt _ _ hi12
    have h3 : row.drop i = row[i] :: row.drop (i + 1) := by
      rw [List.drop_eq_getElem_cons hir]
    rw [h1, h2, h3]
    simp

/-- C1. For every role code 0..5 and each output mode 0 (unpaired) and
1 (paired), `getMITEXT` fills the first twelve bytes of the buffer with exactly
the tag of the classification table and its terminator, so that the C string
in the buffer is that tag. -/
theorem getMITEXT_table (buffer : List Char) (hb : 12 ≤ buffer.length) :
    (getMITEXT 0 0 buffer = some ("p_PR_PM_UG;".toList ++ NUL :: buffer.drop 12)
      ∧ getMITEXT 0 1 buffer = some ("p_PR_PM_PG;".toList ++ NUL :: buffer.drop 12)
      ∧ getMITEXT 1 0 buffer = some ("p_PR_PM_UG;".toList ++ NUL :: buffer.drop 12)
      ∧ getMITEXT 1 1 buffer = some ("p_PR_PM_PG;".toList ++ NUL :: buffer.drop 12)
      ∧ getMITEXT 2 0 buffer = some ("p_PR_UM_NG;".toList ++ NUL :: buffer.drop 12)
      ∧ getMITEXT 2 1 buffer = some ("p_PR_EM_NG;".toList ++ NUL :: buffer.drop 12)
      ∧ getMITEXT 3 0 buffer = some ("p_PR_UM_NG;".toList ++ NUL :: buffer.drop 12)
      ∧ getMITEXT 3 1 buffer = some ("p_PR_EM_NG;".toList ++ NUL :: buffer.drop 12)
      ∧ getMITEXT 4 0 buffer = some ("p_UR_NM_NG;".toList ++ NUL :: buffer.drop 12)
      ∧ getMITEXT 4 1 buffer = some ("p_UR_EM_NG;".toList ++ NUL :: buffer.drop 12)
      ∧ getMITEXT 5 0 buffer = some ("p_ER_NM_NG;".toList ++ NUL :: buffer.drop 12)
      ∧ getMITEXT 5 1 buffer = some ("p_ER_NM_NG;".toList ++ NUL :: buffer.drop 12))
    ∧ (cstr ("p_PR_PM_UG;".toList ++ NUL :: buffer.drop 12) = "p_PR_PM_UG;".toList
      ∧ cstr ("p_PR_PM_PG;".toList ++ NUL :: buffer.drop 12) = "p_PR_PM_PG;".toList
      ∧ cstr ("p_PR_UM_NG;".toList ++ NUL :: buffer.drop 12) = "p_PR_UM_NG;".toList
      ∧ cstr ("p_PR_EM_NG;".toList ++ NUL :: buffer.drop 12) = "p_PR_EM_NG;".toList
      ∧ cstr ("p_UR_NM_NG;".toList ++ NUL :: buffer.drop 12) = "p_UR_NM_NG;".toList
      ∧ cstr ("p_UR_EM_NG;".toList ++ NUL :: buffer.drop 12) = "p_UR_EM_NG;".toList
      ∧ cstr ("p_ER_NM_NG;".toList ++ NUL :: buffer.drop 12) = "p_ER_NM_NG;".toList) := by
  have key : ∀ (r m : Int) (row : List Char),
      (∀ i, i < 12 → MITEXT_at r m i = row[i]?) → row.length = 12 →
      getMITEXT r m buffer = some (row ++ buffer.drop 12) := by
    intro r m row h1 h2
    have := getMITEXT_loop_row r m row h1 h2 12 0 buffer (by omega) hb
    simpa [getMITEXT] using this
  refine ⟨⟨?_, ?_, ?_, ?_, ?_, ?_, ?_, ?_, ?_, ?_, ?_, ?_⟩, ?_⟩
  · exact key 0 0 "p_PR_PM_UG;\x00".toList (by decide) (by decide)
  · exact key 0 1 "p_PR_PM_PG;\x00".toList (by decide) (by decide)
  · exact key 1 0 "p_PR_PM_UG;\x00".toList (by decide) (by decide)
  · exact key 1 1 "p_PR_PM_PG;\x00".toList (by decide) (by decide)
  · exact key 2 0 "p_PR_UM_NG;\x00".toList (by decide) (by decide)
  · exact key 2 1 "p_PR_EM_NG;\x00".toList (by decide) (by decide)
  · exact key 3 0 "p_PR_UM_NG;\x00".toList (by decide) (by decide)
  · exact key 3 1 "p_PR_EM_NG;\x00".toList (by decide) (by decide)
  · exact key 4 0 "p_UR_NM_NG;\x00".toList (by decide) (by decide)
  · exact key 4 1 "p_UR_EM_NG;\x00".toList (by decide) (by decide)
  · exact key 5 0 "p_ER_NM_NG;\x00".toList (by decide) (by decide)
  · exact key 5 1 "p_ER_NM_NG;\x00".toList (by decide) (by decide)
  · refine ⟨?_, ?_, ?_, ?_, ?_, ?_, ?_⟩ <;> simp [cstr, NUL, List.takeWhile]

/-- Witness for C1: the twelve zero bytes of `MI_buffer`, role 0, paired. -/
theorem getMITEXT_table_witness :
    12 ≤ MI_buffer0.length
    ∧ getMITEXT 0 1 MI_buffer0 = some ("p_PR_PM_PG;".toList ++ NUL :: MI_buffer0.drop 12) :=
  ⟨by decide, (getMITEXT_table MI_buffer0 (by decide)).1.2.1⟩

theorem getMITEXT_isSome_fin : ∀ (v : Fin 6) (m : Fin 2),
    (getMITEXT (v.val : Int) (m.val : Int) MI_buffer0).isSome = true := by decide

theorem getMITEXT_defined (v : Nat) (hv : v ≤ 5) (m : Int) (hm : m = 0 ∨ m = 1) :
    ∃ MI_buffer, getMITEXT (v : Int) m MI_buffer0 = some MI_buffer := by
  have h1 := getMITEXT_isSome_fin ⟨v, by omega⟩
  rcases hm with rfl | rfl
  · exact Option.isSome_iff_exists.mp (h1 0)
  · exact Option.isSome_iff_exists.mp (h1 1)

theorem printedString_some (s : CStr) : printedString (some s) = s := rfl

theorem cformat_specHeader (mark : Char) (hmark : mark = '>' ∨ mark = '@')
    (g t i : Option CStr) :
    cformat (specFormats mark).HEADER_FORMAT [Arg.str g, Arg.str t, Arg.str i]
      = some (mark :: printedString g ++ ';' :: printedString t ++ printedString i
          ++ ['\n']) := by
  rcases hmark with rfl | rfl <;> simp [cformat, specFormats]

theorem cformat_specFasta (mark : Char) (g t i s : Option CStr) :
    cformat (specFormats mark).FASTA_FORMAT [Arg.str g, Arg.str t, Arg.str i, Arg.str s]
      = some ('>' :: printedString g ++ ';' :: printedString t ++ printedString i
          ++ '\n' :: printedString s ++ ['\n']) := by
  simp [cformat, specFormats]

theorem cformat_specFastq (mark : Char) (g t i s q : Option CStr) :
    cformat (specFormats mark).FASTQ_FORMAT
        [Arg.str g, Arg.str t, Arg.str i, Arg.str s, Arg.str q]
      = some ('@' :: printedString g ++ ';' :: printedString t ++ printedString i
          ++ '\n' :: printedString s ++ '\n' :: '+' :: '\n' :: printedString q ++ ['\n']) := by
  simp [cformat, specFormats]

theorem sprintf_eq (buffer fmt : List Char) (args : List Arg) (t : CStr)
    (ht : cformat fmt args = some t) (hb : t.length < buffer.length) :
    sprintf buffer fmt args
      = some (t ++ NUL :: buffer.drop (t.length + 1), (t.length : Int)) := by
  simp [sprintf, ht, hb]

/-! ## Single-record rendering -/

theorem render_selection (F : Formats) (h : Heap) (MR : Ptr) (r : BM_mappedRead)
    (hd : deref h MR = some r) (f : Option FILE) (groupName : CStr)
    (headerOnly pairedOutput : Int) (MI : List Char)
    (hMI : getMITEXT (r.rpi.val : Int) pairedOutput MI_buffer0 = some MI) :
    (headerOnly ≠ 0 →
      printMappedRead F h MR f groupName headerOnly pairedOutput
          = (cformat F.HEADER_FORMAT
              [Arg.str (some groupName), Arg.str (some (cstr MI)),
               Arg.str (some r.seqId)]).map (fun t => (f.getD FILE.stdout, t))
      ∧ ∀ buffer, sprintMappedRead F h MR buffer groupName headerOnly pairedOutput
          = sprintf buffer F.HEADER_FORMAT
              [Arg.str (some groupName), Arg.str (some (cstr MI)), Arg.str (some r.seqId)])
    ∧ (headerOnly = 0 → ∀ q, r.qual = some q →
      printMappedRead F h MR f groupName headerOnly pairedOutput
          = (cformat F.FASTQ_FORMAT
              [Arg.str (some groupName), Arg.str (some (cstr MI)), Arg.str (some r.seqId),
               Arg.str r.seq, Arg.str (some q)]).map (fun t => (f.getD FILE.stdout, t))
      ∧ ∀ buffer, sprintMappedRead F h MR buffer groupName headerOnly pairedOutput
          = sprintf buffer F.FASTQ_FORMAT
              [Arg.str (some groupName), Arg.str (some (cstr MI)), Arg.str (some r.seqId),
               Arg.str r.seq, Arg.str (some q)])
    ∧ (headerOnly = 0 → r.qual = none →
      printMappedRead F h MR f groupName headerOnly pairedOutput
          = (cformat F.FASTA_FORMAT
              [Arg.str (some groupName), Arg.str (some (cstr MI)), Arg.str (some r.seqId),
               Arg.str r.seq]).map (fun t => (f.getD FILE.stdout, t))
      ∧ ∀ buffer, sprintMappedRead F h MR buffer groupName headerOnly pairedOutput
          = sprintf buffer F.FASTA_FORMAT
              [Arg.str (some groupName), Arg.str (some (cstr MI)), Arg.str (some r.seqId),
               Arg.str r.seq]) := by
  have hf : (match f with | none => FILE.stdout | some s => s) = f.getD FILE.stdout := by
    cases f <;> rfl
  refine ⟨?_, ?_, ?_⟩
  · intro hh
    refine ⟨?_, fun buffer => ?_⟩
    · simp only [printMappedRead, hd, hMI, hf, hh, ne_eq, not_false_eq_true, if_true]
    · simp only [sprintMappedRead, hd, hMI, hh, ne_eq, not_false_eq_true, if_true]
  · intro hh q hq
    refine ⟨?_, fun buffer => ?_⟩
    · simp only [printMappedRead, hd, hMI, hf, hh, hq, ne_eq, not_true_eq_false, if_false]
    · simp only [sprintMappedRead, hd, hMI, hh, hq, ne_eq, not_true_eq_false, if_false]
  · intro hh hq
    refine ⟨?_, fun buffer => ?_⟩
    · simp only [printMappedRead, hd, hMI, hf, hh, hq, ne_eq, not_true_eq_false, if_false]
    · simp only [sprintMappedRead, hd, hMI, hh, hq, ne_eq, not_true_eq_false, if_false]

/-- C2 (amended). For every live record with role code in 0..5 whose sequence
is present whenever `headerOnly` is zero, every group name and every mode in
{0, 1}, `printMappedRead` and `sprintMappedRead` make one and the same format
call, chosen among three: `HEADER_FORMAT` on group name, tag and id when
`headerOnly` is nonzero; otherwise `FASTQ_FORMAT` on these, the sequence and
the quality when quality is present; otherwise `FASTA_FORMAT` on these and the
sequence. With the formats of the spec the text is the header line (its mark,
group name, `;`, tag, id), or the FASTQ record (`@` header line, a line that
is exactly the sequence, a `+` line, a line that is exactly the quality), or
the FASTA record (`>` header line, a line that is exactly the sequence). -/
theorem render_three_shapes (h : Heap) (MR : Ptr) (r : BM_mappedRead)
    (hMR : deref h MR = some r) (hrpi : r.rpi.val ≤ 5) (f : Option FILE) (groupName : CStr)
    (headerOnly pairedOutput : Int) (hm : pairedOutput = 0 ∨ pairedOutput = 1)
    (hseq : headerOnly = 0 → r.seq ≠ none) :
    ∃ MI_buffer,
      getMITEXT (r.rpi.val : Int) pairedOutput MI_buffer0 = some MI_buffer
      ∧ (∀ F : Formats,
          (headerOnly ≠ 0 →
            printMappedRead F h MR f groupName headerOnly pairedOutput
                = (cformat F.HEADER_FORMAT
                    [Arg.str (some groupName), Arg.str (some (cstr MI_buffer)),
                     Arg.str (some r.seqId)]).map (fun t => (f.getD FILE.stdout, t))
            ∧ ∀ buffer, sprintMappedRead F h MR buffer groupName headerOnly pairedOutput
                = sprintf buffer F.HEADER_FORMAT
                    [Arg.str (some groupName), Arg.str (some (cstr MI_buffer)),
                     Arg.str (some r.seqId)])
          ∧ (headerOnly = 0 → ∀ q, r.qual = some q →
            printMappedRead F h MR f groupName headerOnly pairedOutput
                = (cformat F.FASTQ_FORMAT
                    [Arg.str (some groupName), Arg.str (some (cstr MI_buffer)),
                     Arg.str (some r.seqId), Arg.str r.seq, Arg.str (some q)]).map
                    (fun t => (f.getD FILE.stdout, t))
            ∧ ∀ buffer, sprintMappedRead F h MR buffer groupName headerOnly pairedOutput
                = sprintf buffer F.FASTQ_FORMAT
                    [Arg.str (some groupName), Arg.str (some (cstr MI_buffer)),
                     Arg.str (some r.seqId), Arg.str r.seq, Arg.str (some q)])
          ∧ (headerOnly = 0 → r.qual = none →
            printMappedRead F h MR f groupName headerOnly pairedOutput
                = (cformat F.FASTA_FORMAT
                    [Arg.str (some groupName), Arg.str (some (cstr MI_buffer)),
                     Arg.str (some r.seqId), Arg.str r.seq]).map
                    (fun t => (f.getD FILE.stdout, t))
            ∧ ∀ buffer, sprintMappedRead F h MR buffer groupName headerOnly pairedOutput
                = sprintf buffer F.FASTA_FORMAT
                    [Arg.str (some groupName), Arg.str (some (cstr MI_buffer)),
                     Arg.str (some r.seqId), Arg.str r.seq]))
      ∧ (∀ mark : Char, mark = '>' ∨ mark = '@' →
          ∃ text,
            printMappedRead (specFormats mark) h MR f groupName headerOnly pairedOutput
                = some (f.getD FILE.stdout, text)
            ∧ (∀ buffer : List Char, text.length < buffer.length →
                sprintMappedRead (specFormats mark) h MR buffer groupName headerOnly
                    pairedOutput
                  = some (text ++ NUL :: buffer.drop (text.length + 1), (text.length : Int)))
            ∧ (headerOnly ≠ 0 →
                text = mark :: groupName ++ ';' :: cstr MI_buffer ++ r.seqId ++ ['\n'])
            ∧ (headerOnly = 0 → ∀ s q, r.seq = some s → r.qual = some q →
                text = '@' :: groupName ++ ';' :: cstr MI_buffer ++ r.seqId
                        ++ '\n' :: s ++ '\n' :: '+' :: '\n' :: q ++ ['\n'])
            ∧ (headerOnly = 0 → ∀ s, r.seq = some s → r.qual = none →
                text = '>' :: groupName ++ ';' :: cstr MI_buffer ++ r.seqId
                        ++ '\n' :: s ++ ['\n'])) := by
  obtain ⟨MI, hMI⟩ := getMITEXT_defined r.rpi.val hrpi pairedOutput hm
  refine ⟨MI, hMI, fun F =>
    render_selection F h MR r hMR f groupName headerOnly pairedOutput MI hMI, ?_⟩
  intro mark hmark
  obtain ⟨hH, hQ, hA⟩ :=
    render_selection (specFormats mark) h MR r hMR f groupName headerOnly pairedOutput MI hMI
  by_cases hh : headerOnly = 0
  · obtain ⟨s, hs⟩ := Option.ne_none_iff_exists'.mp (hseq hh)
    cases hq : r.qual with
    | none =>
      obtain ⟨hp, hsp⟩ := hA hh hq
      have hc := cformat_specFasta mark (some groupName) (some (cstr MI)) (some r.seqId)
        (some s)
      simp only [printedString_some] at hc
      rw [hs] at hp hsp
      refine ⟨'>' :: groupName ++ ';' :: cstr MI ++ r.seqId ++ '\n' :: s ++ ['\n'],
        ?_, ?_, ?_, ?_, ?_⟩
      · rw [hp, hc]; rfl
      · intro buffer hb
        rw [hsp buffer]
        exact sprintf_eq _ _ _ _ hc hb
      · intro h0; exact absurd hh h0
      · intro _ s2 q hs2 hq2; cases hq2
      · intro _ s2 hs2 _
        rw [hs] at hs2
        cases hs2; rfl
    | some q =>
      obtain ⟨hp, hsp⟩ := hQ hh q hq
      have hc := cformat_specFastq mark (some groupName) (some (cstr MI)) (some r.seqId)
        (some s) (some q)
      simp only [printedString_some] at hc
      rw [hs] at hp hsp
      refine ⟨'@' :: groupName ++ ';' :: cstr MI ++ r.seqId
          ++ '\n' :: s ++ '\n' :: '+' :: '\n' :: q ++ ['\n'], ?_, ?_, ?_, ?_, ?_⟩
      · rw [hp, hc]; rfl
      · intro buffer hb
        rw [hsp buffer]
        exact sprintf_eq _ _ _ _ hc hb
      · intro h0; exact absurd hh h0
      · intro _ s2 q2 hs2 hq2
        rw [hs] at hs2
        cases hs2; cases hq2; rfl
      · intro _ s2 _ hq2; cases hq2
  · obtain ⟨hp, hsp⟩ := hH hh
    have hc := cformat_specHeader mark hmark (some groupName) (some (cstr MI)) (some r.seqId)
    simp only [printedString_some] at hc
    refine ⟨mark :: groupName ++ ';' :: cstr MI ++ r.seqId ++ ['\n'], ?_, ?_, ?_, ?_, ?_⟩
    · rw [hp, hc]; rfl
    · intro buffer hb
      rw [hsp buffer]
      exact sprintf_eq _ _ _ _ hc hb
    · intro _; rfl
    · intro h0; exact absurd h0 hh
    · intro h0; exact absurd h0 hh

/-- Witness for C2. -/
theorem render_three_shapes_witness :
    (deref [some exRead] 0 = some exRead ∧ deref [some exReadNoQual] 0 = some exReadNoQual)
    ∧ printMappedRead (specFormats '>') [some exRead] 0 none "g".toList 0 1
        = some (FILE.stdout, "@g;p_PR_PM_PG;r1\nACGT\n+\n!!!!\n".toList)
    ∧ printMappedRead (specFormats '>') [some exReadNoQual] 0 none "g".toList 0 1
        = some (FILE.stdout, ">g;p_PR_PM_PG;r1\nACGT\n".toList) := by
  refine ⟨⟨rfl, rfl⟩, ?_, ?_⟩
  · obtain ⟨MI, hMI, -, hspec⟩ :=
      render_three_shapes [some exRead] 0 exRead rfl (by decide) none "g".toList 0 1
        (Or.inr rfl) (by decide)
    obtain ⟨text, hp, -, -, hq, -⟩ := hspec '>' (Or.inl rfl)
    have e : getMITEXT (exRead.rpi.val : Int) 1 MI_buffer0 = some "p_PR_PM_PG;\x00".toList := by
      decide
    have hMI2 : "p_PR_PM_PG;\x00".toList = MI := Option.some.inj (e.symm.trans hMI)
    subst hMI2
    rw [hq rfl "ACGT".toList "!!!!".toList rfl rfl] at hp
    exact hp
  · obtain ⟨MI, hMI, -, hspec⟩ :=
      render_three_shapes [some exReadNoQual] 0 exReadNoQual rfl (by decide) none "g".toList 0 1
        (Or.inr rfl) (by decide)
    obtain ⟨text, hp, -, -, -, ha⟩ := hspec '>' (Or.inl rfl)
    have e : getMITEXT (exReadNoQual.rpi.val : Int) 1 MI_buffer0
        = some "p_PR_PM_PG;\x00".toList := by
      decide
    have hMI2 : "p_PR_PM_PG;\x00".toList = MI := Option.some.inj (e.symm.trans hMI)
    subst hMI2
    rw [ha rfl "ACGT".toList rfl rfl] at hp
    exact hp

/-- C2, counterexample. The record with role 0, quality `!!!!` and no sequence,
rendered with `headerOnly` zero in paired mode: both renderers write a FASTQ
block of 31 characters whose second line is `(null)`, what `%s` prints for the
null sequence pointer; the record has no sequence, so that line is not the
sequence of the record. -/
theorem render_absent_sequence_null_line :
    deref [some exReadNoSeq] 0 = some exReadNoSeq
    ∧ exReadNoSeq.rpi.val ≤ 5 ∧ exReadNoSeq.qual = some "!!!!".toList
    ∧ exReadNoSeq.seq = none
    ∧ printMappedRead (specFormats '>') [some exReadNoSeq] 0 none "g".toList 0 1
        = some (FILE.stdout, "@g;p_PR_PM_PG;r1\n(null)\n+\n!!!!\n".toList)
    ∧ sprintMappedRead (specFormats '>') [some exReadNoSeq] 0 (List.replicate 64 NUL)
          "g".toList 0 1
        = some ("@g;p_PR_PM_PG;r1\n(null)\n+\n!!!!\n".toList ++ List.replicate 33 NUL, 31) := by
  decide

/-! ## Whole-chain rendering -/

theorem MITEXT_row_spec : ∀ (v : Fin 6) (m : Fin 2),
    (MITEXT_row (v.val : Int) (m.val : Int)).length = 12
    ∧ ∀ i, i < 12 →
        MITEXT_at (v.val : Int) (m.val : Int) i = (MITEXT_row (v.val : Int) (m.val : Int))[i]? := by
  decide

theorem MITEXT_entry_spec : ∀ (v : Fin 6) (e : Fin 12),
    (MITEXT_entry (v.val : Int) ((e.val : Int) - (v.val : Int) * 2)).length = 12
    ∧ ∀ i, i < 12 →
        MITEXT_at (v.val : Int) ((e.val : Int) - (v.val : Int) * 2) i
          = (MITEXT_entry (v.val : Int) ((e.val : Int) - (v.val : Int) * 2))[i]? := by
  decide

theorem inObject_entry (rpi paired : Int) (hin : inObject rpi paired 0) :
    ∃ (n e : Nat), n < 6 ∧ e < 12 ∧ rpi = (n : Int) ∧ paired = (e : Int) - (n : Int) * 2 := by
  obtain ⟨h1, h2, h3, h4⟩ := hin
  obtain ⟨n, rfl⟩ := Int.eq_ofNat_of_zero_le h1
  have h5 : 0 ≤ (n : Int) * 2 + paired := by omega
  obtain ⟨e, he⟩ := Int.eq_ofNat_of_zero_le h5
  exact ⟨n, e, by omega, by omega, rfl, by omega⟩

theorem getMITEXT_of_inObject (rpi paired : Int) (hin : inObject rpi paired 0)
    (c : List Char) (hc : 12 ≤ c.length) :
    (MITEXT_entry rpi paired).length = 12
    ∧ getMITEXT rpi paired c = some (MITEXT_entry rpi paired ++ c.drop 12) := by
  obtain ⟨n, e, hn, he, rfl, rfl⟩ := inObject_entry rpi paired hin
  obtain ⟨hl, hrow⟩ := MITEXT_entry_spec ⟨n, hn⟩ ⟨e, he⟩
  refine ⟨hl, ?_⟩
  have := getMITEXT_loop_row (n : Int) ((e : Int) - (n : Int) * 2) _ hrow hl 12 0 c
    (by omega) hc
  simpa [getMITEXT] using this

theorem getMITEXT_none_of_not_inObject (rpi paired : Int) (hn : ¬ inObject rpi paired 0)
    (buffer : List Char) : getMITEXT rpi paired buffer = none := by
  simp [getMITEXT, getMITEXT_loop, MITEXT_at, hn]

theorem getMITEXT_len12 (r m : Int) (b : List Char) (hb : b.length = 12) :
    getMITEXT r m b = getMITEXT r m MI_buffer0
    ∧ ∀ b2, getMITEXT r m b = some b2 → b2.length = 12 := by
  by_cases hin : inObject r m 0
  · have e : ∀ c : List Char, c.length = 12 →
        getMITEXT r m c = some (MITEXT_entry r m) := by
      intro c hc
      have := (getMITEXT_of_inObject r m hin c (by omega)).2
      have hd : c.drop 12 = [] := List.drop_eq_nil_of_le (by omega)
      simpa [hd] using this
    refine ⟨?_, ?_⟩
    · rw [e b hb, e MI_buffer0 (by decide)]
    · intro b2 h2
      rw [e b hb] at h2
      cases h2
      exact (getMITEXT_of_inObject r m hin b (by omega)).1
  · have e := getMITEXT_none_of_not_inObject r m hin
    refine ⟨?_, ?_⟩
    · rw [e, e]
    · intro b2 h2
      rw [e] at h2
      cases h2

theorem walkChain_next_cons (h : Heap) (fuel : Nat) (q : Ptr) (r : BM_mappedRead)
    (ps : List Ptr) (hd : deref h q = some r)
    (hw : walkChain getNextMappedRead h (fuel + 1) (some q) = some ps) :
    ∃ rest, walkChain getNextMappedRead h fuel r.nextRead = some rest ∧ ps = q :: rest := by
  simp only [walkChain, getNextMappedRead, hd, Option.map_some'] at hw
  cases hr : walkChain getNextMappedRead h fuel r.nextRead with
  | none => rw [hr] at hw; cases hw
  | some rest =>
    rw [hr] at hw
    exact ⟨rest, rfl, (Option.some.inj hw).symm⟩

theorem printMappedReads_fasta_walk (F : Formats) (groupNames : List CStr) (pairedOutput : Int)
    (h : Heap) : ∀ (fuel : Nat) (p : Option Ptr) (b : List Char) (ps : List Ptr),
    b.length = 12 → walkChain getNextMappedRead h fuel p = some ps →
    printMappedReads_fasta F groupNames pairedOutput fuel h p b
      = concatTexts (ps.map fun q => (deref h q).bind (nodeFasta F groupNames pairedOutput)) := by
  intro fuel
  induction fuel with
  | zero =>
    intro p b ps _ hw
    cases p with
    | none =>
      simp only [walkChain, Option.some.injEq] at hw
      subst hw
      simp [printMappedReads_fasta, concatTexts]
    | some q => simp [walkChain] at hw
  | succ fuel ih =>
    intro p b ps hb hw
    cases p with
    | none =>
      simp only [walkChain, Option.some.injEq] at hw
      subst hw
      simp [printMappedReads_fasta, concatTexts]
    | some q =>
      cases hd : deref h q with
      | none => simp [walkChain, getNextMappedRead, hd] at hw
      | some r =>
        obtain ⟨rest, hrest, rfl⟩ := walkChain_next_cons h fuel q r ps hd hw
        obtain ⟨hbuf, hlen⟩ := getMITEXT_len12 (r.rpi.val : Int) pairedOutput b hb
        simp only [printMappedReads_fasta, hd, List.map_cons, Option.some_bind, nodeFasta]
        rw [hbuf] at hlen ⊢
        cases hMI : getMITEXT (r.rpi.val : Int) pairedOutput MI_buffer0 with
        | none => simp [concatTexts]
        | some MI =>
          cases hg : groupNames[r.group.val]? with
          | none => simp [concatTexts]
          | some g =>
            simp only []
            cases ht : cformat F.FASTA_FORMAT
                [Arg.str (some g), Arg.str (some (cstr MI)), Arg.str (some r.seqId),
                 Arg.str r.seq] with
            | none => simp [concatTexts]
            | some t =>
              simp only [concatTexts]
              rw [ih r.nextRead MI rest (hlen MI hMI) hrest]
              rfl

theorem printMappedReads_fastq_walk (F : Formats) (groupNames : List CStr) (pairedOutput : Int)
    (h : Heap) : ∀ (fuel : Nat) (p : Option Ptr) (b : List Char) (ps : List Ptr),
    b.length = 12 → walkChain getNextMappedRead h fuel p = some ps →
    printMappedReads_fastq F groupNames pairedOutput fuel h p b
      = concatTexts (ps.map fun q => (deref h q).bind (nodeFastq F groupNames pairedOutput)) := by
  intro fuel
  induction fuel with
  | zero =>
    intro p b ps _ hw
    cases p with
    | none =>
      simp only [walkChain, Option.some.injEq] at hw
      subst hw
      simp [printMappedReads_fastq, concatTexts]
    | some q => simp [walkChain] at hw
  | succ fuel ih =>
    intro p b ps hb hw
    cases p with
    | none =>
      simp only [walkChain, Option.some.injEq] at hw
      subst hw
      simp [printMappedReads_fastq, concatTexts]
    | some q =>
      cases hd : deref h q with
      | none => simp [walkChain, getNextMappedRead, hd] at hw
      | some r =>
        obtain ⟨rest, hrest, rfl⟩ := walkChain_next_cons h fuel q r ps hd hw
        obtain ⟨hbuf, hlen⟩ := getMITEXT_len12 (r.rpi.val : Int) pairedOutput b hb
        simp only [printMappedReads_fastq, hd, List.map_cons, Option.some_bind, nodeFastq]
        rw [hbuf] at hlen ⊢
        cases hMI : getMITEXT (r.rpi.val : Int) pairedOutput MI_buffer0 with
        | none => simp [concatTexts]
        | some MI =>
          cases hg : groupNames[r.group.val]? with
          | none => simp [concatTexts]
          | some g =>
            simp only []
            cases ht : cformat F.FASTQ_FORMAT
                [Arg.str (some g), Arg.str (some (cstr MI)), Arg.str (some r.seqId),
                 Arg.str r.seq, Arg.str r.qual] with
            | none => simp [concatTexts]
            | some t =>
              simp only [concatTexts]
              rw [ih r.nextRead MI rest (hlen MI hMI) hrest]
              rfl

theorem printMappedReads_headers_walk (F : Formats) (groupNames : List CStr) (pairedOutput : Int)
    (h : Heap) : ∀ (fuel : Nat) (p : Option Ptr) (b : List Char) (ps : List Ptr),
    b.length = 12 → walkChain getNextMappedRead h fuel p = some ps →
    printMappedReads_headers F groupNames pairedOutput fuel h p b
      = concatTexts (ps.map fun q => (deref h q).bind (nodeHeader F groupNames pairedOutput)) := by
  intro fuel
  induction fuel with
  | zero =>
    intro p b ps _ hw
    cases p with
    | none =>
      simp only [walkChain, Option.some.injEq] at hw
      subst hw
      simp [printMappedReads_headers, concatTexts]
    | some q => simp [walkChain] at hw
  | succ fuel ih =>
    intro p b ps hb hw
    cases p with
    | none =>
      simp only [walkChain, Option.some.injEq] at hw
      subst hw
      simp [printMappedReads_headers, concatTexts]
    | some q =>
      cases hd : deref h q with
      | none => simp [walkChain, getNextMappedRead, hd] at hw
      | some r =>
        obtain ⟨rest, hrest, rfl⟩ := walkChain_next_cons h fuel q r ps hd hw
        obtain ⟨hbuf, hlen⟩ := getMITEXT_len12 (r.rpi.val : Int) pairedOutput b hb
        simp only [printMappedReads_headers, hd, List.map_cons, Option.some_bind, nodeHeader]
        rw [hbuf] at hlen ⊢
        cases hMI : getMITEXT (r.rpi.val : Int) pairedOutput MI_buffer0 with
        | none => simp [concatTexts]
        | some MI =>
          cases hg : groupNames[r.group.val]? with
          | none => simp [concatTexts]
          | some g =>
            simp only []
            cases ht : cformat F.HEADER_FORMAT
                [Arg.str (some g), Arg.str (some (cstr MI)), Arg.str (some r.seqId)] with
            | none => simp [concatTexts]
            | some t =>
              simp only [concatTexts]
              rw [ih r.nextRead MI rest (hlen MI hMI) hrest]
              rfl

theorem concatTexts_none_of_mem : ∀ (l : List (Option CStr)), none ∈ l → concatTexts l = none
  | [], hm => by simp at hm
  | none :: _, _ => rfl
  | some t :: rest, hm => by
    have hr : none ∈ rest := by simpa using hm
    simp [concatTexts, concatTexts_none_of_mem rest hr]

/-- C3. For every non-empty ingestion chain rendered by `printMappedReads`
with `headersOnly` zero, the shape of the whole output is fixed by the quality
of the head alone. If the head has no quality, the output is the FASTA text of
every node, one after the other, whatever quality the later nodes carry. If the
head has quality, the output is the FASTQ text of every node, one after the
other, also for a later node that has none. With the formats of the spec the
FASTA text of a node is its `>` header line and its sequence line, and the
FASTQ text of a node is its `@` header line, its sequence line, a `+` line and
its quality line, which reads `(null)` for a node without quality. -/
theorem printMappedReads_shape_by_head (F : Formats) (h : Heap) (MR0 : Ptr)
    (r0 : BM_mappedRead) (ps : List Ptr) (fuel : Nat) (hhead : deref h MR0 = some r0)
    (hwalk : walkChain getNextMappedRead h fuel (some MR0) = some ps)
    (f : Option FILE) (groupNames : List CStr) (pairedOutput : Int) :
    (r0.qual = none →
      printMappedReads F fuel h (some MR0) f groupNames 0 pairedOutput
        = (concatTexts (ps.map fun q => (deref h q).bind (nodeFasta F groupNames pairedOutput))).map
            fun t => (f.getD FILE.stdout, t))
    ∧ (r0.qual ≠ none →
      printMappedReads F fuel h (some MR0) f groupNames 0 pairedOutput
        = (concatTexts (ps.map fun q => (deref h q).bind (nodeFastq F groupNames pairedOutput))).map
            fun t => (f.getD FILE.stdout, t))
    ∧ (∀ (mark : Char) (r : BM_mappedRead) (g : CStr) (MI_buffer : List Char),
        groupNames[r.group.val]? = some g →
        getMITEXT (r.rpi.val : Int) pairedOutput MI_buffer0 = some MI_buffer →
        nodeFasta (specFormats mark) groupNames pairedOutput r
            = some ('>' :: g ++ ';' :: cstr MI_buffer ++ r.seqId
                ++ '\n' :: printedString r.seq ++ ['\n'])
        ∧ nodeFastq (specFormats mark) groupNames pairedOutput r
            = some ('@' :: g ++ ';' :: cstr MI_buffer ++ r.seqId
                ++ '\n' :: printedString r.seq ++ '\n' :: '+' :: '\n'
                  :: printedString r.qual ++ ['\n'])) := by
  have hf : (match f with | none => FILE.stdout | some s => s) = f.getD FILE.stdout := by
    cases f <;> rfl
  refine ⟨?_, ?_, ?_⟩
  · intro hq
    simp only [printMappedReads, hhead, hq, hf, ne_eq, not_true_eq_false, if_false]
    rw [printMappedReads_fasta_walk F groupNames pairedOutput h fuel (some MR0) MI_buffer0 ps
      (by decide) hwalk]
  · intro hq
    obtain ⟨q, hq2⟩ := Option.ne_none_iff_exists'.mp hq
    simp only [printMappedReads, hhead, hq2, hf, ne_eq, not_true_eq_false, if_false]
    rw [printMappedReads_fastq_walk F groupNames pairedOutput h fuel (some MR0) MI_buffer0 ps
      (by decide) hwalk]
  · intro mark r g MI hg hMI
    constructor
    · have hc := cformat_specFasta mark (some g) (some (cstr MI)) (some r.seqId) r.seq
      simp only [printedString_some] at hc
      simp only [nodeFasta, hMI, hg, hc]
    · have hc := cformat_specFastq mark (some g) (some (cstr MI)) (some r.seqId) r.seq r.qual
      simp only [printedString_some] at hc
      simp only [nodeFastq, hMI, hg, hc]

/-- Witness for C3: a head without quality followed by a node with quality is
written as two FASTA records; a head with quality followed by a node without
is written as two FASTQ records. -/
theorem printMappedReads_shape_by_head_witness :
    (deref exChainFastaHead 0 = some { exReadNoQual with nextRead := some 1 }
      ∧ walkChain getNextMappedRead exChainFastaHead 2 (some 0) = some [0, 1]
      ∧ deref exChainFastqHead 0 = some { exRead with nextRead := some 1 }
      ∧ walkChain getNextMappedRead exChainFastqHead 2 (some 0) = some [0, 1])
    ∧ printMappedReads (specFormats '>') 2 exChainFastaHead (some 0) none ["g".toList] 0 0
        = some (FILE.stdout, ">g;p_PR_PM_UG;r1\nACGT\n>g;p_PR_PM_UG;r2\nACGT\n".toList)
    ∧ printMappedReads (specFormats '>') 2 exChainFastqHead (some 0) none ["g".toList] 0 0
        = some (FILE.stdout,
            "@g;p_PR_PM_UG;r1\nACGT\n+\n!!!!\n@g;p_PR_PM_UG;r2\nACGT\n+\n(null)\n".toList) := by
  refine ⟨⟨rfl, rfl, rfl, rfl⟩, ?_, ?_⟩
  · rw [(printMappedReads_shape_by_head (specFormats '>') exChainFastaHead 0 _ [0, 1] 2 rfl rfl
      none ["g".toList] 0).1 rfl]
    decide
  · rw [(printMappedReads_shape_by_head (specFormats '>') exChainFastqHead 0
      { exRead with nextRead := some 1 } [0, 1] 2 rfl rfl none ["g".toList] 0).2.1 (by decide)]
    decide

/-! ## The store -/

theorem deref_append_length (h : Heap) (c : Option BM_mappedRead) :
    deref (h ++ [c]) h.length = c := by
  simp [deref]

theorem deref_append_left (h t : Heap) (p : Ptr) (hp : p < h.length) :
    deref (h ++ t) p = deref h p := by
  simp [deref, List.getElem?_append_left hp]

theorem deref_lt_length (h : Heap) (p : Ptr) (r : BM_mappedRead) (hd : deref h p = some r) :
    p < h.length := by
  by_contra hlt
  have : h[p]? = none := List.getElem?_eq_none (Nat.le_of_not_lt hlt)
  simp [deref, this] at hd

theorem deref_set_self (h : Heap) (p : Ptr) (c : Option BM_mappedRead) (hp : p < h.length) :
    deref (h.set p c) p = c := by
  simp [deref, List.getElem?_set_self hp]

theorem deref_set_ne (h : Heap) (p q : Ptr) (c : Option BM_mappedRead) (hne : p ≠ q) :
    deref (h.set p c) q = deref h q := by
  simp [deref, List.getElem?_set_ne hne]

theorem makeMappedRead_no_prev (h : Heap) (a : ReadArgs) :
    makeMappedRead h a.seqId a.seq a.qual a.idLen a.seqLen a.qualLen a.rpi a.group none
      = some (h ++ [some a.record], h.length) := by
  obtain ⟨i, s, q, il, sl, ql, rp, g⟩ := a
  cases s <;> cases q <;> rfl

theorem makeMappedRead_prev (h : Heap) (a : ReadArgs) (p : Ptr) (pr : BM_mappedRead)
    (hd : deref h p = some pr) :
    makeMappedRead h a.seqId a.seq a.qual a.idLen a.seqLen a.qualLen a.rpi a.group (some p)
      = some (h.set p (some { pr with nextRead := some h.length }) ++ [some a.record],
          h.length) := by
  have hp := deref_lt_length h p pr hd
  obtain ⟨i, s, q, il, sl, ql, rp, g⟩ := a
  cases s <;> cases q <;>
    simp [makeMappedRead, hd, ReadArgs.record, List.set_append_left _ _ hp]

theorem makeChain_from_tail : ∀ (rest : List ReadArgs) (h : Heap) (a : ReadArgs),
    makeChain (h ++ [some a.record]) (some h.length) rest
      = some (h ++ chainCells h.length (a :: rest),
          List.range' (h.length + 1) rest.length)
  | [], h, a => by simp [makeChain, chainCells]
  | b :: rest, h, a => by
    have hd : deref (h ++ [some a.record]) h.length = some a.record :=
      deref_append_length h _
    have ih := makeChain_from_tail rest
      (h ++ [some { a.record with nextRead := some (h.length + 1) }]) b
    rw [makeChain, makeMappedRead_prev _ b h.length a.record hd]
    have e : (h ++ [some a.record]).set h.length
        (some { a.record with nextRead := some (h ++ [some a.record]).length })
        = h ++ [some { a.record with nextRead := some (h.length + 1) }] := by
      simp
    rw [e]
    simp only [List.length_append, List.length_singleton] at ih ⊢
    rw [ih]
    simp [chainCells, List.range'_succ]

theorem makeChain_no_prev (h : Heap) (args : List ReadArgs) :
    makeChain h none args
      = some (h ++ chainCells h.length args, List.range' h.length args.length) := by
  cases args with
  | nil => simp [makeChain, chainCells]
  | cons a rest =>
    rw [makeChain, makeMappedRead_no_prev]
    simp only [makeChain_from_tail rest h a]
    simp [List.range'_succ]

theorem chainCells_length : ∀ (args : List ReadArgs) (base : Nat),
    (chainCells base args).length = args.length
  | [], _ => rfl
  | [_], _ => rfl
  | _ :: b :: rest, base => by
    simp [chainCells, chainCells_length (b :: rest) (base + 1)]

theorem chainCells_getElem? : ∀ (args : List ReadArgs) (base i : Nat) (hi : i < args.length),
    (chainCells base args)[i]?
      = some (some { args[i].record with
          nextRead := if i + 1 < args.length then some (base + i + 1) else none })
  | [], _, _, hi => by simp at hi
  | [a], base, i, hi => by
    have : i = 0 := by simpa using hi
    subst this
    simp [chainCells, ReadArgs.record]
  | a :: b :: rest, base, 0, _ => by
    simp [chainCells]
  | a :: b :: rest, base, j + 1, hi => by
    have hj : j < (b :: rest).length := by simpa using hi
    have ih := chainCells_getElem? (b :: rest) (base + 1) j hj
    simp only [chainCells, List.getElem?_cons_succ, ih, List.getElem_cons_succ, List.length_cons]
    have e : base + 1 + j + 1 = base + (j + 1) + 1 := by omega
    simp only [e, Nat.add_lt_add_iff_right]

theorem deref_chainCells (pre : Heap) (args : List ReadArgs) (i : Nat) (hi : i < args.length) :
    deref (pre ++ chainCells pre.length args) (pre.length + i)
      = some { args[i].record with
          nextRead := if i + 1 < args.length then some (pre.length + i + 1) else none } := by
  have := chainCells_getElem? args pre.length i hi
  simp [deref, List.getElem?_append_right, this]

theorem walkChain_chainCells (pre : Heap) (args : List ReadArgs) :
    ∀ (k i fuel : Nat), i + k = args.length → k ≤ fuel →
      walkChain getNextMappedRead (pre ++ chainCells pre.length args) fuel
          (if 0 < k then some (pre.length + i) else none)
        = some (List.range' (pre.length + i) k) := by
  intro k
  induction k with
  | zero =>
    intro i fuel _ _
    cases fuel <;> simp [walkChain]
  | succ k ih =>
    intro i fuel hik hf
    obtain ⟨fuel, rfl⟩ : ∃ g, fuel = g + 1 := ⟨fuel - 1, by omega⟩
    have hi : i < args.length := by omega
    have hd := deref_chainCells pre args i hi
    have hnext := ih (i + 1) fuel (by omega) (by omega)
    simp only [Nat.zero_lt_succ, if_true, walkChain, getNextMappedRead, hd, Option.map_some']
    by_cases hk : 0 < k
    · have h1 : i + 1 < args.length := by omega
      simp only [hk, if_true] at hnext
      simp only [h1, if_true]
      rw [← Nat.add_assoc] at hnext
      rw [hnext]
      simp [List.range'_succ, Nat.add_assoc]
    · have h1 : ¬ i + 1 < args.length := by omega
      have hk0 : k = 0 := by omega
      subst hk0
      simp only [h1, if_false]
      cases fuel <;> simp [walkChain]

/-! ## Building and walking the ingestion chain -/

/-- C4. For every store and every non-empty run of `makeMappedRead` calls in
which the first call has no predecessor and each later call passes the record
returned by the call before it, the calls succeed and return N fresh, distinct
addresses; walking from the first with `getNextMappedRead` until the null
pointer visits exactly these N records, once each, in creation order (for any
fuel of at least N); every visited record holds the strings and scalars of its
call; and `getNextPrintRead` returns the null pointer for each of them. -/
theorem makeChain_walk_creation_order (h : Heap) (args : List ReadArgs) (hne : args ≠ []) :
    ∃ h2 ps,
      makeChain h none args = some (h2, ps)
      ∧ ps = List.range' h.length args.length
      ∧ ps.length = args.length ∧ ps.Nodup
      ∧ (∀ fuel, args.length ≤ fuel →
          walkChain getNextMappedRead h2 fuel ps.head? = some ps)
      ∧ (∀ i (hi : i < args.length), ∃ r,
          deref h2 (h.length + i) = some r
          ∧ { r with nextRead := none } = args[i].record)
      ∧ (∀ p, p ∈ ps → getNextPrintRead h2 p = some none) := by
  have hlen : 0 < args.length := List.length_pos.mpr hne
  refine ⟨_, _, makeChain_no_prev h args, rfl, by simp, List.nodup_range' _ _, ?_, ?_, ?_⟩
  · intro fuel hf
    have := walkChain_chainCells h args args.length 0 fuel (by omega) hf
    simp only [hlen, if_true, Nat.add_zero] at this
    rw [← this]
    congr 1
    cases hn : args.length with
    | zero => omega
    | succ n => simp [List.range'_succ]
  · intro i hi
    exact ⟨_, deref_chainCells h args i hi, rfl⟩
  · intro p hp
    obtain ⟨hp1, hp2⟩ := List.mem_range'_1.mp hp
    have hpi : p = h.length + (p - h.length) := (Nat.add_sub_cancel' hp1).symm
    have hi : p - h.length < args.length := Nat.sub_lt_left_of_lt_add hp1 hp2
    rw [hpi]
    simp [getNextPrintRead, deref_chainCells h args (p - h.length) hi, ReadArgs.record]

/-- Witness for C4: two calls on the empty store. -/
theorem makeChain_walk_creation_order_witness :
    exArgs ≠ []
    ∧ ∃ h2, makeChain [] none exArgs = some (h2, [0, 1])
      ∧ walkChain getNextMappedRead h2 2 (some 0) = some [0, 1]
      ∧ getNextPrintRead h2 0 = some none ∧ getNextPrintRead h2 1 = some none := by
  refine ⟨by decide, ?_⟩
  obtain ⟨h2, ps, hm, hps, -, -, hw, -, hp⟩ :=
    makeChain_walk_creation_order [] exArgs (by decide)
  have e : ps = [0, 1] := by rw [hps]; decide
  subst e
  exact ⟨h2, hm, hw 2 (by decide), hp 0 (by decide), hp 1 (by decide)⟩

/-! ## Stream and buffer rendering agree -/

theorem render_common (F : Formats) (h : Heap) (MR : Ptr) (groupName : CStr)
    (headerOnly pairedOutput : Int) :
    ∃ o : Option (List Char × List Arg),
      (∀ f, printMappedRead F h MR f groupName headerOnly pairedOutput
          = (o.bind fun c => cformat c.1 c.2).map fun t => (f.getD FILE.stdout, t))
      ∧ (∀ buffer, sprintMappedRead F h MR buffer groupName headerOnly pairedOutput
          = o.bind fun c => sprintf buffer c.1 c.2) := by
  have hf : ∀ f : Option FILE,
      (match f with | none => FILE.stdout | some s => s) = f.getD FILE.stdout := by
    intro f; cases f <;> rfl
  cases hd : deref h MR with
  | none => exact ⟨none, by simp [printMappedRead, hd], by simp [sprintMappedRead, hd]⟩
  | some r =>
    cases hMI : getMITEXT (r.rpi.val : Int) pairedOutput MI_buffer0 with
    | none => exact ⟨none, by simp [printMappedRead, hd, hMI], by simp [sprintMappedRead, hd, hMI]⟩
    | some MI =>
      by_cases hh : headerOnly = 0
      · cases hq : r.qual with
        | none =>
          exact ⟨some (F.FASTA_FORMAT,
              [Arg.str (some groupName), Arg.str (some (cstr MI)), Arg.str (some r.seqId),
               Arg.str r.seq]),
            by simp [printMappedRead, hd, hMI, hh, hq, hf],
            by simp [sprintMappedRead, hd, hMI, hh, hq]⟩
        | some q =>
          exact ⟨some (F.FASTQ_FORMAT,
              [Arg.str (some groupName), Arg.str (some (cstr MI)), Arg.str (some r.seqId),
               Arg.str r.seq, Arg.str (some q)]),
            by simp [printMappedRead, hd, hMI, hh, hq, hf],
            by simp [sprintMappedRead, hd, hMI, hh, hq]⟩
      · exact ⟨some (F.HEADER_FORMAT,
            [Arg.str (some groupName), Arg.str (some (cstr MI)), Arg.str (some r.seqId)]),
          by simp [printMappedRead, hd, hMI, hh, hf],
          by simp [sprintMappedRead, hd, hMI, hh]⟩

/-- C5. Whenever `printMappedRead` is defined and writes a text, and the
buffer has room for that text and its terminator, `sprintMappedRead` with the
same record, group name, `headerOnly` and mode writes byte for byte that text
(terminated) at the start of the buffer and reports its length as the count;
conversely a defined `sprintMappedRead` means `printMappedRead` writes the text
found in the buffer; and rendering the same record again with the same
arguments, to the stream or into the buffer just filled, gives the same text
and the same count. -/
theorem print_sprint_agree (F : Formats) (h : Heap) (MR : Ptr) (f : Option FILE)
    (groupName : CStr) (headerOnly pairedOutput : Int) (dest : FILE) (text : CStr)
    (buffer : List Char)
    (hp : printMappedRead F h MR f groupName headerOnly pairedOutput = some (dest, text))
    (hb : text.length < buffer.length) :
    sprintMappedRead F h MR buffer groupName headerOnly pairedOutput
        = some (text ++ NUL :: buffer.drop (text.length + 1), (text.length : Int))
    ∧ (text ++ NUL :: buffer.drop (text.length + 1)).take text.length = text
    ∧ (text ++ NUL :: buffer.drop (text.length + 1))[text.length]? = some NUL
    ∧ (∀ buffer2 count,
        sprintMappedRead F h MR buffer groupName headerOnly pairedOutput = some (buffer2, count) →
        count = (text.length : Int) ∧ buffer2.take text.length = text)
    ∧ sprintMappedRead F h MR (text ++ NUL :: buffer.drop (text.length + 1)) groupName
        headerOnly pairedOutput
        = some (text ++ NUL :: buffer.drop (text.length + 1), (text.length : Int))
    ∧ (∀ dest2 text2,
        printMappedRead F h MR f groupName headerOnly pairedOutput = some (dest2, text2) →
        text2 = text) := by
  obtain ⟨o, ho1, ho2⟩ := render_common F h MR groupName headerOnly pairedOutput
  have hc : (o.bind fun c => cformat c.1 c.2) = some text := by
    have := ho1 f
    rw [hp] at this
    cases hcf : (o.bind fun c => cformat c.1 c.2) with
    | none => rw [hcf] at this; cases this
    | some t =>
      rw [hcf] at this
      simp only [Option.map_some', Option.some.injEq, Prod.mk.injEq] at this
      rw [this.2]
  cases o with
  | none => simp at hc
  | some c =>
    simp only [Option.some_bind] at hc
    have hs : ∀ b : List Char, text.length < b.length →
        sprintMappedRead F h MR b groupName headerOnly pairedOutput
          = some (text ++ NUL :: b.drop (text.length + 1), (text.length : Int)) := by
      intro b hb2
      rw [ho2 b]
      exact sprintf_eq b c.1 c.2 text hc hb2
    have htake : (text ++ NUL :: buffer.drop (text.length + 1)).take text.length = text := by
      simp
    have hnul : (text ++ NUL :: buffer.drop (text.length + 1))[text.length]? = some NUL := by
      rw [List.getElem?_append_right (Nat.le_refl _)]
      simp
    refine ⟨hs buffer hb, htake, hnul, ?_, ?_, ?_⟩
    · intro buffer2 count h2
      rw [hs buffer hb] at h2
      simp only [Option.some.injEq, Prod.mk.injEq] at h2
      obtain ⟨rfl, rfl⟩ := h2
      exact ⟨rfl, htake⟩
    · have hlen : text.length < (text ++ NUL :: buffer.drop (text.length + 1)).length := by
        simp
      rw [hs _ hlen]
      simp
    · intro dest2 text2 h2
      rw [hp] at h2
      simp only [Option.some.injEq, Prod.mk.injEq] at h2
      exact h2.2.symm

/-- Witness for C5: the example record, FASTQ shape, into a 64-byte buffer. -/
theorem print_sprint_agree_witness :
    printMappedRead (specFormats '>') [some exRead] 0 none "g".toList 0 1
        = some (FILE.stdout, "@g;p_PR_PM_PG;r1\nACGT\n+\n!!!!\n".toList)
    ∧ "@g;p_PR_PM_PG;r1\nACGT\n+\n!!!!\n".toList.length < (List.replicate 64 'x').length
    ∧ sprintMappedRead (specFormats '>') [some exRead] 0 (List.replicate 64 'x') "g".toList 0 1
        = some ("@g;p_PR_PM_PG;r1\nACGT\n+\n!!!!\n".toList ++ NUL :: List.replicate 34 'x', 29) :=
  ⟨by decide, by decide,
    (print_sprint_agree (specFormats '>') [some exRead] 0 none "g".toList 0 1 FILE.stdout
      "@g;p_PR_PM_PG;r1\nACGT\n+\n!!!!\n".toList (List.replicate 64 'x') (by decide)
      (by decide)).1⟩

/-! ## Role codes outside the table -/

/-- C6 (amended). For every role code outside 0..5, with any output mode,
`getMITEXT` has no guard and no error to raise: its first step reads
`MITEXT[rpi][paired][0]`, outside the table of six rows, so the call is
undefined and no tag is produced; every renderer called on a record carrying
such a code is undefined as well. -/
theorem getMITEXT_out_of_table (rpi paired : Int) (hr : rpi < 0 ∨ 5 < rpi) :
    (∀ buffer, getMITEXT rpi paired buffer = none)
    ∧ getMITEXT_reads rpi paired 12 0 = [(rpi, paired, 0)]
    ∧ ¬ inTable rpi paired 0
    ∧ (∀ (F : Formats) (h : Heap) (MR : Ptr) (r : BM_mappedRead),
        deref h MR = some r → (r.rpi.val : Int) = rpi →
        (∀ f groupName headerOnly,
          printMappedRead F h MR f groupName headerOnly paired = none)
        ∧ (∀ buffer groupName headerOnly,
          sprintMappedRead F h MR buffer groupName headerOnly paired = none)
        ∧ (∀ fuel f groupNames headersOnly,
          printMappedReads F fuel h (some MR) f groupNames headersOnly paired = none)) := by
  have hn : ¬ inTable rpi paired 0 := by
    intro hin
    obtain ⟨h1, h2, -⟩ := hin
    omega
  have hno : ¬ inObject rpi paired 0 := by
    intro hin
    obtain ⟨h1, h2, -⟩ := hin
    omega
  have hg := getMITEXT_none_of_not_inObject rpi paired hno
  refine ⟨hg, by simp [getMITEXT_reads, hno], hn, ?_⟩
  intro F h MR r hd hrpi
  subst hrpi
  refine ⟨?_, ?_, ?_⟩
  · intro f groupName headerOnly
    simp [printMappedRead, hd, hg]
  · intro buffer groupName headerOnly
    simp [sprintMappedRead, hd, hg]
  · intro fuel f groupNames headersOnly
    by_cases hh : headersOnly = 0
    · cases hq : r.qual with
      | none =>
        cases fuel <;>
          simp [printMappedReads, hd, hg, hh, hq, printMappedReads_fasta]
      | some q =>
        cases fuel <;>
          simp [printMappedReads, hd, hg, hh, hq, printMappedReads_fastq]
    · cases fuel <;>
        simp [printMappedReads, hd, hg, hh, printMappedReads_headers]

/-- Witness for C6: role code 6. -/
theorem getMITEXT_out_of_table_witness :
    ((6 : Int) < 0 ∨ (5 : Int) < 6)
    ∧ getMITEXT 6 1 MI_buffer0 = none
    ∧ getMITEXT_reads 6 1 12 0 = [(6, 1, 0)] :=
  ⟨by decide, (getMITEXT_out_of_table 6 1 (by decide)).1 MI_buffer0,
    (getMITEXT_out_of_table 6 1 (by decide)).2.1⟩

/-- C6, counterexample. Role code 6 in unpaired mode: the one table read that
`getMITEXT` performs is `MITEXT[6][0][0]`, which lies outside the table, and
the call has no defined outcome; for the record of role 255 the renderer has
none either. -/
theorem getMITEXT_role6_reads_outside :
    getMITEXT_reads 6 0 12 0 = [(6, 0, 0)]
    ∧ ¬ inTable 6 0 0
    ∧ MITEXT_at 6 0 0 = none
    ∧ getMITEXT 6 0 MI_buffer0 = none
    ∧ printMappedRead (specFormats '>') [some { exRead with rpi := 255 }] 0 none "g".toList 1 0
        = none := by
  decide

/-! ## The constructor -/

theorem makeMappedRead_eq (h : Heap) (seqId : CStr) (seq qual : Option CStr)
    (idLen seqLen qualLen : Fin 65536) (rpi : Fin 256) (group : Fin 65536)
    (prev_MR : Option Ptr) (hprev : ∀ p, prev_MR = some p → ∃ pr, deref h p = some pr) :
    makeMappedRead h seqId seq qual idLen seqLen qualLen rpi group prev_MR
      = some
          ((match prev_MR with
            | none => h
            | some p =>
              match deref h p with
              | none => h
              | some pr => h.set p (some { pr with nextRead := some h.length }))
            ++ [some { seqId := seqId, seq := seq, qual := qual, idLen := idLen,
                       seqLen := seqLen, qualLen := qualLen, rpi := rpi, group := group,
                       nextRead := none, partnerRead := none, nextPrintingRead := none }],
           h.length) := by
  have e := fun p pr hd => makeMappedRead_prev h
    ⟨seqId, seq, qual, idLen, seqLen, qualLen, rpi, group⟩ p pr hd
  have e0 := makeMappedRead_no_prev h ⟨seqId, seq, qual, idLen, seqLen, qualLen, rpi, group⟩
  cases prev_MR with
  | none => exact e0
  | some p =>
    obtain ⟨pr, hd⟩ := hprev p rfl
    simp only [hd]
    exact e p pr hd

theorem makeMappedRead_new_cell (h : Heap) (seqId : CStr) (seq qual : Option CStr)
    (idLen seqLen qualLen : Fin 65536) (rpi : Fin 256) (group : Fin 65536)
    (prev_MR : Option Ptr) (hprev : ∀ p, prev_MR = some p → ∃ pr, deref h p = some pr) :
    ∃ h2,
      makeMappedRead h seqId seq qual idLen seqLen qualLen rpi group prev_MR
        = some (h2, h.length)
      ∧ deref h2 h.length
          = some { seqId := seqId, seq := seq, qual := qual, idLen := idLen,
                   seqLen := seqLen, qualLen := qualLen, rpi := rpi, group := group,
                   nextRead := none, partnerRead := none, nextPrintingRead := none } := by
  refine ⟨_, makeMappedRead_eq h seqId seq qual idLen seqLen qualLen rpi group prev_MR hprev,
    ?_⟩
  have hd : ∀ pre : Heap, pre.length = h.length → ∀ c : Option BM_mappedRead,
      deref (pre ++ [c]) h.length = c := by
    intro pre hl c
    rw [← hl]
    exact deref_append_length pre c
  have hl : (match prev_MR with
          | none => h
          | some p =>
            match deref h p with
            | none => h
            | some pr => h.set p (some { pr with nextRead := some h.length })).length
        = h.length := by
    cases prev_MR with
    | none => rfl
    | some p =>
      simp only []
      split <;> simp
  exact hd _ hl _

/-- C7. For every id, optional sequence, optional quality, lengths, role code
and group, and every predecessor that is absent or a live record,
`makeMappedRead` succeeds and returns a fresh address whose record holds the
given id, the given sequence and quality (absent when not given, not the empty
string), the lengths, role code and group verbatim, and a null ingestion
successor, partner and print successor. -/
theorem makeMappedRead_record (h : Heap) (seqId : CStr) (seq qual : Option CStr)
    (idLen seqLen qualLen : Fin 65536) (rpi : Fin 256) (group : Fin 65536)
    (prev_MR : Option Ptr) (hprev : ∀ p, prev_MR = some p → ∃ pr, deref h p = some pr) :
    ∃ h2 MR,
      makeMappedRead h seqId seq qual idLen seqLen qualLen rpi group prev_MR = some (h2, MR)
      ∧ deref h MR = none
      ∧ deref h2 MR
          = some { seqId := seqId, seq := seq, qual := qual, idLen := idLen,
                   seqLen := seqLen, qualLen := qualLen, rpi := rpi, group := group,
                   nextRead := none, partnerRead := none, nextPrintingRead := none }
      ∧ getNextMappedRead h2 MR = some none
      ∧ getNextPrintRead h2 MR = some none
      ∧ (seq = none → (deref h2 MR).map (fun r => r.seq) ≠ some (some []))
      ∧ (qual = none → (deref h2 MR).map (fun r => r.qual) ≠ some (some [])) := by
  obtain ⟨h2, hmk, hd2⟩ :=
    makeMappedRead_new_cell h seqId seq qual idLen seqLen qualLen rpi group prev_MR hprev
  refine ⟨h2, h.length, hmk, ?_, hd2, ?_, ?_, ?_, ?_⟩
  · simp [deref]
  · simp [getNextMappedRead, hd2]
  · simp [getNextPrintRead, hd2]
  · intro hs; simp [hd2, hs]
  · intro hq; simp [hd2, hq]

/-- Witness for C7: a second call on the store of the first, with a null
sequence and quality and lengths that disagree with the strings. -/
theorem makeMappedRead_record_witness :
    (∀ p, some 0 = some p → ∃ pr, deref [some exRead] p = some pr)
    ∧ ∃ h2 MR,
      makeMappedRead [some exRead] "r2".toList none none 7 0 9 5 3 (some 0) = some (h2, MR)
      ∧ deref h2 MR
          = some { seqId := "r2".toList, seq := none, qual := none, idLen := 7,
                   seqLen := 0, qualLen := 9, rpi := 5, group := 3,
                   nextRead := none, partnerRead := none, nextPrintingRead := none } := by
  have hp : ∀ p, some 0 = some p → ∃ pr, deref [some exRead] p = some pr := by
    intro p hp
    cases hp
    exact ⟨exRead, rfl⟩
  obtain ⟨h2, MR, h1, -, h3, -⟩ :=
    makeMappedRead_record [some exRead] "r2".toList none none 7 0 9 5 3 (some 0) hp
  exact ⟨hp, h2, MR, h1, h3⟩

/-- C8. For every store and every live predecessor `p` in it, `makeMappedRead`
with predecessor `p` makes the new record the ingestion successor of `p`,
whatever successor `p` had, and changes nothing else: the other fields of `p`
and every other cell of the store are as before; with no predecessor every
cell of the store is as before. In both cases the store grows by the new
record only. -/
theorem makeMappedRead_frame (h : Heap) (seqId : CStr) (seq qual : Option CStr)
    (idLen seqLen qualLen : Fin 65536) (rpi : Fin 256) (group : Fin 65536)
    (p : Ptr) (pr : BM_mappedRead) (hp : deref h p = some pr) :
    (∃ h2 MR,
      makeMappedRead h seqId seq qual idLen seqLen qualLen rpi group (some p) = some (h2, MR)
      ∧ h2.length = h.length + 1 ∧ MR = h.length
      ∧ deref h2 p = some { pr with nextRead := some MR }
      ∧ (∀ q, q ≠ p → q < h.length → h2[q]? = h[q]?))
    ∧ (∃ h2 MR,
      makeMappedRead h seqId seq qual idLen seqLen qualLen rpi group none = some (h2, MR)
      ∧ h2.length = h.length + 1 ∧ MR = h.length
      ∧ (∀ q, q < h.length → h2[q]? = h[q]?)) := by
  have hlt := deref_lt_length h p pr hp
  constructor
  · refine ⟨_, _, makeMappedRead_eq h seqId seq qual idLen seqLen qualLen rpi group (some p)
      (fun q hq => by cases hq; exact ⟨pr, hp⟩), ?_, rfl, ?_, ?_⟩
    · simp [hp]
    · simp only [hp]
      rw [deref_append_left _ _ _ (by simpa using hlt)]
      exact deref_set_self h p _ hlt
    · intro q hqp hq
      simp only [hp]
      rw [List.getElem?_append_left (by simpa using hq)]
      exact List.getElem?_set_ne (Ne.symm hqp)
  · refine ⟨_, _, makeMappedRead_eq h seqId seq qual idLen seqLen qualLen rpi group none
      (fun q hq => by cases hq), ?_, rfl, ?_⟩
    · simp
    · intro q hq
      exact List.getElem?_append_left hq

/-- Witness for C8: the head of a two-node chain, which already has a
successor, is given as predecessor. -/
theorem makeMappedRead_frame_witness :
    deref exChainFastaHead 0 = some { exReadNoQual with nextRead := some 1 }
    ∧ ∃ h2,
      makeMappedRead exChainFastaHead "r3".toList none none 2 0 0 4 0 (some 0) = some (h2, 2)
      ∧ deref h2 0 = some { exReadNoQual with nextRead := some 2 }
      ∧ h2[1]? = exChainFastaHead[1]? := by
  refine ⟨rfl, ?_⟩
  obtain ⟨⟨h2, MR, h1, -, hMR, h3, h4⟩, -⟩ :=
    makeMappedRead_frame exChainFastaHead "r3".toList none none 2 0 0 4 0 0
      { exReadNoQual with nextRead := some 1 } rfl
  have e : MR = 2 := hMR
  subst e
  exact ⟨h2, h1, h3, h4 1 (by decide) (by decide)⟩

/-! ## Partner queries -/

theorem cformat_nein_partner1 (n : Int) :
    cformat "1. nein partner %d\n".toList [Arg.int n]
      = some ("1. nein partner ".toList ++ decimal n ++ ['\n']) := by
  simp [cformat]

theorem cformat_nein_partner2 (n : Int) :
    cformat "2. nein partner %d\n".toList [Arg.int n]
      = some ("2. nein partner ".toList ++ decimal n ++ ['\n']) := by
  simp [cformat]

/-- C9. For every record returned by `makeMappedRead`, for any role code and
group, `getPartner` returns the null pointer and `partnerInSameGroup` returns
0, each after its diagnostic line on standard output and neither failing; the
same holds in every store in which the record is live with no partner set. -/
theorem partner_absent_after_make (h : Heap) (seqId : CStr) (seq qual : Option CStr)
    (idLen seqLen qualLen : Fin 65536) (rpi : Fin 256) (group : Fin 65536)
    (prev_MR : Option Ptr) (h2 : Heap) (MR : Ptr)
    (hmk : makeMappedRead h seqId seq qual idLen seqLen qualLen rpi group prev_MR
      = some (h2, MR)) :
    getPartner h2 MR
        = some (none, "1. nein partner ".toList ++ decimal (rpi.val : Int) ++ ['\n'])
    ∧ partnerInSameGroup h2 MR
        = some (0, "2. nein partner ".toList ++ decimal (rpi.val : Int) ++ ['\n'])
    ∧ (∀ (h3 : Heap) (r : BM_mappedRead), deref h3 MR = some r → r.partnerRead = none →
        getPartner h3 MR
            = some (none, "1. nein partner ".toList ++ decimal (r.rpi.val : Int) ++ ['\n'])
        ∧ partnerInSameGroup h3 MR
            = some (0, "2. nein partner ".toList ++ decimal (r.rpi.val : Int) ++ ['\n'])) := by
  have gen : ∀ (h3 : Heap) (r : BM_mappedRead), deref h3 MR = some r → r.partnerRead = none →
      getPartner h3 MR
          = some (none, "1. nein partner ".toList ++ decimal (r.rpi.val : Int) ++ ['\n'])
      ∧ partnerInSameGroup h3 MR
          = some (0, "2. nein partner ".toList ++ decimal (r.rpi.val : Int) ++ ['\n']) := by
    intro h3 r hd hpn
    constructor
    · simp only [getPartner, hd, hpn, cformat_nein_partner1, Option.map_some']
    · simp only [partnerInSameGroup, hd, hpn, cformat_nein_partner2, Option.map_some']
  have hprev : ∀ p, prev_MR = some p → ∃ pr, deref h p = some pr := by
    intro p hp
    subst hp
    cases hd : deref h p with
    | none => simp [makeMappedRead, hd] at hmk
    | some pr => exact ⟨pr, rfl⟩
  obtain ⟨h2b, h1, h3⟩ :=
    makeMappedRead_new_cell h seqId seq qual idLen seqLen qualLen rpi group prev_MR hprev
  rw [hmk] at h1
  simp only [Option.some.injEq, Prod.mk.injEq] at h1
  obtain ⟨rfl, rfl⟩ := h1
  obtain ⟨g1, g2⟩ := gen h2 _ h3 rfl
  exact ⟨g1, g2, gen⟩

/-- Witness for C9: the record of role 5 made after the example record. -/
theorem partner_absent_after_make_witness :
    ∃ h2 MR,
      makeMappedRead [some exRead] "r2".toList none none 7 0 9 5 3 (some 0) = some (h2, MR)
      ∧ getPartner h2 MR = some (none, "1. nein partner 5\n".toList)
      ∧ partnerInSameGroup h2 MR = some (0, "2. nein partner 5\n".toList) := by
  have hmk : makeMappedRead [some exRead] "r2".toList none none 7 0 9 5 3 (some 0)
      = some ([some { exRead with nextRead := some 1 },
               some { seqId := "r2".toList, seq := none, qual := none, idLen := 7,
                      seqLen := 0, qualLen := 9, rpi := 5, group := 3,
                      nextRead := none, partnerRead := none, nextPrintingRead := none }],
              1) := by
    decide
  have hw := partner_absent_after_make [some exRead] "r2".toList none none 7 0 9 5 3 (some 0)
    _ _ hmk
  exact ⟨_, _, hmk, hw.1, hw.2.1⟩

/-! ## Teardown -/

theorem destroyMappedReads_eq : ∀ (fuel : Nat) (h : Heap) (root : Option Ptr),
    destroyMappedReads fuel h root = destroyChain (fun r => r.nextRead) fuel h root
  | 0, _, none => rfl
  | 0, _, some _ => rfl
  | _ + 1, _, none => rfl
  | fuel + 1, h, some p => by
    simp only [destroyMappedReads, destroyChain]
    cases deref h p with
    | none => rfl
    | some r => simp only [destroyMappedReads_eq fuel]

theorem destroyPrintChain_eq : ∀ (fuel : Nat) (h : Heap) (root : Option Ptr),
    destroyPrintChain fuel h root = destroyChain (fun r => r.nextPrintingRead) fuel h root
  | 0, _, none => rfl
  | 0, _, some _ => rfl
  | _ + 1, _, none => rfl
  | fuel + 1, h, some p => by
    simp only [destroyPrintChain, destroyChain]
    cases deref h p with
    | none => rfl
    | some r => simp only [destroyPrintChain_eq fuel]

theorem walkChain_cons_inv (next : Heap → Ptr → Option (Option Ptr)) (h : Heap)
    (fuel : Nat) (p : Ptr) (ps : List Ptr)
    (hw : walkChain next h fuel (some p) = some ps) :
    ∃ g q rest, fuel = g + 1 ∧ next h p = some q ∧ walkChain next h g q = some rest
      ∧ ps = p :: rest := by
  cases fuel with
  | zero => simp [walkChain] at hw
  | succ g =>
    simp only [walkChain] at hw
    cases hn : next h p with
    | none => rw [hn] at hw; cases hw
    | some q =>
      simp only [hn] at hw
      cases hr : walkChain next h g q with
      | none => simp [hr] at hw
      | some rest =>
        simp only [hr, Option.map_some', Option.some.injEq] at hw
        exact ⟨g, q, rest, rfl, rfl, hr, hw.symm⟩

theorem walkChain_none (next : Heap → Ptr → Option (Option Ptr)) (h : Heap) (fuel : Nat) :
    walkChain next h fuel none = some [] := by
  cases fuel <;> rfl

theorem walkChain_det (next : Heap → Ptr → Option (Option Ptr)) (h : Heap) :
    ∀ (f1 f2 : Nat) (p : Option Ptr) (a b : List Ptr),
      walkChain next h f1 p = some a → walkChain next h f2 p = some b → a = b := by
  intro f1
  induction f1 with
  | zero =>
    intro f2 p a b ha hb
    cases p with
    | none =>
      rw [walkChain_none] at ha hb
      cases ha; cases hb; rfl
    | some q => simp [walkChain] at ha
  | succ f1 ih =>
    intro f2 p a b ha hb
    cases p with
    | none =>
      rw [walkChain_none] at ha hb
      cases ha; cases hb; rfl
    | some q =>
      obtain ⟨g1, q1, r1, hg1, hn1, hw1, rfl⟩ := walkChain_cons_inv next h _ q a ha
      obtain ⟨g2, q2, r2, hg2, hn2, hw2, rfl⟩ := walkChain_cons_inv next h _ q b hb
      rw [hn1] at hn2
      cases hn2
      have e1 : g1 = f1 := by omega
      subst e1
      rw [ih g2 q1 r1 r2 hw1 hw2]

theorem walkChain_from_member (next : Heap → Ptr → Option (Option Ptr)) (h : Heap) :
    ∀ (fuel : Nat) (p : Option Ptr) (l : List Ptr) (q : Ptr),
      walkChain next h fuel p = some l → q ∈ l →
      ∃ g sfx, walkChain next h g (some q) = some sfx ∧ sfx.length ≤ l.length := by
  intro fuel
  induction fuel with
  | zero =>
    intro p l q hw hq
    cases p with
    | none => rw [walkChain_none] at hw; cases hw; simp at hq
    | some x => simp [walkChain] at hw
  | succ fuel ih =>
    intro p l q hw hq
    cases p with
    | none => rw [walkChain_none] at hw; cases hw; simp at hq
    | some x =>
      obtain ⟨g, y, rest, hg, hn, hr, rfl⟩ := walkChain_cons_inv next h _ x l hw
      have eg : g = fuel := by omega
      subst eg
      rcases List.mem_cons.mp hq with rfl | hmem
      · exact ⟨g + 1, q :: rest, hw, Nat.le_refl _⟩
      · obtain ⟨g2, sfx, hs, hlen⟩ := ih y rest q hr hmem
        exact ⟨g2, sfx, hs, by simp; omega⟩

theorem walkChain_nodup (next : Heap → Ptr → Option (Option Ptr)) (h : Heap) :
    ∀ (fuel : Nat) (p : Option Ptr) (l : List Ptr),
      walkChain next h fuel p = some l → l.Nodup := by
  intro fuel
  induction fuel with
  | zero =>
    intro p l hw
    cases p with
    | none => rw [walkChain_none] at hw; cases hw; exact List.nodup_nil
    | some x => simp [walkChain] at hw
  | succ fuel ih =>
    intro p l hw
    cases p with
    | none => rw [walkChain_none] at hw; cases hw; exact List.nodup_nil
    | some x =>
      obtain ⟨g, y, rest, hg, hn, hr, rfl⟩ := walkChain_cons_inv next h _ x l hw
      have eg : g = fuel := by omega
      subst eg
      refine List.nodup_cons.mpr ⟨?_, ih y rest hr⟩
      intro hmem
      obtain ⟨g2, sfx, hs, hlen⟩ := walkChain_from_member next h g y rest x hr hmem
      have := walkChain_det next h _ _ _ _ _ hw hs
      rw [← this] at hlen
      simp at hlen

theorem walkChain_congr (next : Heap → Ptr → Option (Option Ptr)) (h h2 : Heap) :
    ∀ (fuel : Nat) (p : Option Ptr) (l : List Ptr),
      walkChain next h fuel p = some l → (∀ q, q ∈ l → next h2 q = next h q) →
      walkChain next h2 fuel p = some l := by
  intro fuel
  induction fuel with
  | zero =>
    intro p l hw _
    cases p with
    | none => rw [walkChain_none] at hw ⊢; exact hw
    | some x => simp [walkChain] at hw
  | succ fuel ih =>
    intro p l hw hq
    cases p with
    | none => rw [walkChain_none] at hw ⊢; exact hw
    | some x =>
      obtain ⟨g, y, rest, hg, hn, hr, rfl⟩ := walkChain_cons_inv next h _ x l hw
      have eg : g = fuel := by omega
      subst eg
      have h1 := ih y rest hr (fun q hm => hq q (List.mem_cons_of_mem _ hm))
      simp only [walkChain, hq x (List.mem_cons_self _ _), hn, h1, Option.map_some']

theorem freeAll_getElem? : ∀ (ps : List Ptr) (h : Heap) (q : Ptr),
    (freeAll h ps)[q]? = if q ∈ ps then (h[q]?).map (fun _ => none) else h[q]?
  | [], h, q => by simp [freeAll]
  | p :: rest, h, q => by
    have ih := freeAll_getElem? rest (h.set p none) q
    have e : freeAll h (p :: rest) = freeAll (h.set p none) rest := rfl
    rw [e, ih]
    by_cases hqr : q ∈ rest
    · simp only [hqr, if_true, List.mem_cons, or_true]
      by_cases hpq : p = q
      · subst hpq
        by_cases hlt : p < h.length
        · simp [List.getElem?_set_self hlt, List.getElem?_eq_getElem hlt]
        · have hle : h.length ≤ p := Nat.le_of_not_lt hlt
          simp [List.getElem?_eq_none hle, hle]
      · rw [List.getElem?_set_ne hpq]
    · by_cases hpq : p = q
      · subst hpq
        simp only [hqr, if_false, List.mem_cons, true_or, if_true]
        by_cases hlt : p < h.length
        · simp [List.getElem?_set_self hlt, List.getElem?_eq_getElem hlt]
        · have hle : h.length ≤ p := Nat.le_of_not_lt hlt
          simp [List.getElem?_eq_none hle, hle]
      · have hqp : ¬ q = p := fun e => hpq e.symm
        simp only [hqr, if_false, List.mem_cons, hqp, or_self]
        rw [List.getElem?_set_ne hpq]

theorem freeAll_length : ∀ (ps : List Ptr) (h : Heap), (freeAll h ps).length = h.length
  | [], _ => rfl
  | p :: rest, h => by
    have e : freeAll h (p :: rest) = freeAll (h.set p none) rest := rfl
    rw [e, freeAll_length rest]
    simp

theorem deref_freeAll_mem (ps : List Ptr) (h : Heap) (q : Ptr) (hq : q ∈ ps) :
    deref (freeAll h ps) q = none := by
  simp only [deref, freeAll_getElem?, hq, if_true]
  cases h[q]? <;> rfl

theorem getLink_set_ne (link : BM_mappedRead → Option Ptr) (h : Heap) (p q : Ptr)
    (c : Option BM_mappedRead) (hne : p ≠ q) :
    getLink link (h.set p c) q = getLink link h q := by
  simp [getLink, deref_set_ne h p q c hne]

theorem destroyChain_walk (link : BM_mappedRead → Option Ptr) :
    ∀ (ps : List Ptr) (h : Heap) (root : Option Ptr) (fuel fuel2 : Nat),
      walkChain (getLink link) h fuel root = some ps → ps.length ≤ fuel2 →
      destroyChain link fuel2 h root = some (freeAll h ps, ps)
  | [], h, root, fuel, fuel2, hw, _ => by
    cases root with
    | none => cases fuel2 <;> rfl
    | some p =>
      obtain ⟨_, _, _, _, _, _, he⟩ := walkChain_cons_inv _ h fuel p [] hw
      cases he
  | p :: rest, h, root, fuel, fuel2, hw, hf => by
    have hnd := walkChain_nodup _ h fuel root _ hw
    cases root with
    | none => rw [walkChain_none] at hw; cases hw
    | some x =>
      obtain ⟨g, y, rest2, hg, hn, hr, he⟩ := walkChain_cons_inv _ h fuel x _ hw
      cases he
      have hfuel2 : fuel2 = (fuel2 - 1) + 1 := by
        have : 1 ≤ fuel2 := Nat.le_trans (by simp) hf
        omega
      have hpn : p ∉ rest := (List.nodup_cons.mp hnd).1
      have hr2 : walkChain (getLink link) (h.set p none) g y = some rest := by
        refine walkChain_congr _ h _ g y rest hr ?_
        intro q hq
        exact getLink_set_ne link h p q none (fun e => hpn (e ▸ hq))
      cases hd : deref h p with
      | none => simp [getLink, hd] at hn
      | some r =>
        have hy : y = link r := by
          simp only [getLink, hd, Option.map_some', Option.some.injEq] at hn
          exact hn.symm
        subst hy
        have ih := destroyChain_walk link rest (h.set p none) (link r) g (fuel2 - 1) hr2
          (by simp at hf; omega)
        rw [hfuel2]
        simp only [destroyChain, hd, ih]
        rfl

theorem walkChain_live (link : BM_mappedRead → Option Ptr) (h : Heap) (fuel : Nat)
    (p : Option Ptr) (l : List Ptr) (hw : walkChain (getLink link) h fuel p = some l)
    (q : Ptr) (hq : q ∈ l) : deref h q ≠ none := by
  obtain ⟨g, sfx, hs, -⟩ := walkChain_from_member _ h fuel p l q hw hq
  obtain ⟨_, y, _, _, hn, _, _⟩ := walkChain_cons_inv _ h g q sfx hs
  intro hd
  simp [getLink, hd] at hn

theorem destroyChain_frame (link link2 : BM_mappedRead → Option Ptr) (h : Heap) (root : Ptr)
    (ps : List Ptr) (fuel : Nat)
    (hw : walkChain (getLink link) h fuel (some root) = some ps) :
    ps.Nodup
    ∧ ∀ fuel2, ps.length ≤ fuel2 →
      ∃ h2, destroyChain link fuel2 h (some root) = some (h2, ps)
        ∧ h2.length = h.length
        ∧ (∀ p, p ∈ ps → deref h p ≠ none ∧ deref h2 p = none)
        ∧ (∀ q, q ∉ ps → h2[q]? = h[q]?)
        ∧ (∀ fuel3 q0 qs, walkChain (getLink link2) h fuel3 q0 = some qs →
            (∀ q, q ∈ qs → q ∉ ps) →
            walkChain (getLink link2) h2 fuel3 q0 = some qs
            ∧ ∀ q, q ∈ qs → deref h2 q = deref h q) := by
  refine ⟨walkChain_nodup _ h fuel _ ps hw, ?_⟩
  intro fuel2 hf
  have hframe : ∀ q, q ∉ ps → (freeAll h ps)[q]? = h[q]? := by
    intro q hq
    simp [freeAll_getElem?, hq]
  refine ⟨freeAll h ps, destroyChain_walk link ps h (some root) fuel fuel2 hw hf,
    freeAll_length ps h, ?_, hframe, ?_⟩
  · intro p hp
    exact ⟨walkChain_live link h fuel _ ps hw p hp, deref_freeAll_mem ps h p hp⟩
  · intro fuel3 q0 qs hq hdisj
    have hsame : ∀ q, q ∈ qs → deref (freeAll h ps) q = deref h q := by
      intro q hm
      simp [deref, hframe q (hdisj q hm)]
    refine ⟨walkChain_congr _ h _ fuel3 q0 qs hq ?_, hsame⟩
    intro q hm
    simp [getLink, hsame q hm]

/-- C10. Over an explicit store: when the ingestion chain from `root` ends at
the null pointer after the records `ps` (so it is acyclic: `ps` has no
repetition), `destroyMappedReads` with fuel for `ps` frees exactly the records
`ps`, each once and in chain order; they were live before and are dead after,
every other cell is unchanged, and any print chain over records outside `ps`
is walked as before over the same records. The same holds for
`destroyPrintChain` with the two links exchanged. With a null head both free
nothing and leave the store as it is. -/
theorem destroy_releases_exactly_chain (h : Heap) (root : Ptr) (ps : List Ptr) (fuel : Nat) :
    (walkChain getNextMappedRead h fuel (some root) = some ps →
      ps.Nodup
      ∧ ∀ fuel2, ps.length ≤ fuel2 →
        ∃ h2, destroyMappedReads fuel2 h (some root) = some (h2, ps)
          ∧ h2.length = h.length
          ∧ (∀ p, p ∈ ps → deref h p ≠ none ∧ deref h2 p = none)
          ∧ (∀ q, q ∉ ps → h2[q]? = h[q]?)
          ∧ (∀ fuel3 q0 qs, walkChain getNextPrintRead h fuel3 q0 = some qs →
              (∀ q, q ∈ qs → q ∉ ps) →
              walkChain getNextPrintRead h2 fuel3 q0 = some qs
              ∧ ∀ q, q ∈ qs → deref h2 q = deref h q))
    ∧ (walkChain getNextPrintRead h fuel (some root) = some ps →
      ps.Nodup
      ∧ ∀ fuel2, ps.length ≤ fuel2 →
        ∃ h2, destroyPrintChain fuel2 h (some root) = some (h2, ps)
          ∧ h2.length = h.length
          ∧ (∀ p, p ∈ ps → deref h p ≠ none ∧ deref h2 p = none)
          ∧ (∀ q, q ∉ ps → h2[q]? = h[q]?)
          ∧ (∀ fuel3 q0 qs, walkChain getNextMappedRead h fuel3 q0 = some qs →
              (∀ q, q ∈ qs → q ∉ ps) →
              walkChain getNextMappedRead h2 fuel3 q0 = some qs
              ∧ ∀ q, q ∈ qs → deref h2 q = deref h q))
    ∧ (∀ fuel2, destroyMappedReads fuel2 h none = some (h, [])
        ∧ destroyPrintChain fuel2 h none = some (h, [])) := by
  have e1 : getNextMappedRead = getLink (fun r => r.nextRead) := rfl
  have e2 : getNextPrintRead = getLink (fun r => r.nextPrintingRead) := rfl
  refine ⟨?_, ?_, ?_⟩
  · intro hw
    rw [e1] at hw
    rw [e2]
    have := destroyChain_frame (fun r => r.nextRead) (fun r => r.nextPrintingRead) h root ps
      fuel hw
    simpa only [destroyMappedReads_eq] using this
  · intro hw
    rw [e2] at hw
    rw [e1]
    have := destroyChain_frame (fun r => r.nextPrintingRead) (fun r => r.nextRead) h root ps
      fuel hw
    simpa only [destroyPrintChain_eq] using this
  · intro fuel2
    cases fuel2 <;> exact ⟨rfl, rfl⟩

/-- Witness for C10: the ingestion chain 0, 1 is torn down; the print chain
3, 2 over the other two records is walked as before. -/
theorem destroy_releases_exactly_chain_witness :
    walkChain getNextMappedRead exTwoChains 2 (some 0) = some [0, 1]
    ∧ walkChain getNextPrintRead exTwoChains 2 (some 3) = some [3, 2]
    ∧ ∃ h2, destroyMappedReads 2 exTwoChains (some 0) = some (h2, [0, 1])
      ∧ deref h2 0 = none ∧ deref h2 1 = none
      ∧ walkChain getNextPrintRead h2 2 (some 3) = some [3, 2]
      ∧ deref h2 2 = deref exTwoChains 2 ∧ deref h2 3 = deref exTwoChains 3 := by
  have hw : walkChain getNextMappedRead exTwoChains 2 (some 0) = some [0, 1] := by decide
  have hp : walkChain getNextPrintRead exTwoChains 2 (some 3) = some [3, 2] := by decide
  obtain ⟨h2, hd, -, hdead, -, hpr⟩ :=
    ((destroy_releases_exactly_chain exTwoChains 0 [0, 1] 2).1 hw).2 2 (by decide)
  obtain ⟨hwalk, hsame⟩ := hpr 2 (some 3) [3, 2] hp (by decide)
  exact ⟨hw, hp, h2, hd, (hdead 0 (by decide)).2, (hdead 1 (by decide)).2, hwalk,
    hsame 2 (by decide), hsame 3 (by decide)⟩

/-! ## The print chain -/

theorem setNextPrintRead_eq (h : Heap) (b : Ptr) (t : Option Ptr) (r : BM_mappedRead)
    (hd : deref h b = some r) :
    setNextPrintRead h b t = some (h.set b (some { r with nextPrintingRead := t })) := by
  simp [setNextPrintRead, hd]

theorem deref_set (h : Heap) (p q : Ptr) (c : Option BM_mappedRead) (hp : p < h.length) :
    deref (h.set p c) q = if p = q then c else deref h q := by
  by_cases e : p = q
  · subst e
    simp [deref_set_self h p c hp]
  · simp [e, deref_set_ne h p q c e]

theorem setPrintReverse_spec : ∀ (ps : List Ptr) (h : Heap),
    (∀ p, p ∈ ps → deref h p ≠ none) → ps.Nodup →
    ∃ h3, setPrintReverse h ps = some h3
      ∧ h3.length = h.length
      ∧ (∀ q, (deref h3 q).map withoutPrintLink = (deref h q).map withoutPrintLink)
      ∧ (∀ q, q ∉ ps.tail → deref h3 q = deref h q)
      ∧ (∀ i (hi : i + 1 < ps.length),
          getNextPrintRead h3 (ps.get ⟨i + 1, hi⟩)
            = some (some (ps.get ⟨i, Nat.lt_of_succ_lt hi⟩)))
  | [], h, _, _ => ⟨h, rfl, rfl, fun _ => rfl, fun _ _ => rfl, fun i hi => by simp at hi⟩
  | [a], h, _, _ => ⟨h, rfl, rfl, fun _ => rfl, fun _ _ => rfl, fun i hi => by simp at hi⟩
  | a :: b :: rest, h, hlive, hnd => by
    obtain ⟨rb, hb⟩ := Option.ne_none_iff_exists'.mp (hlive b (by simp))
    have hblt := deref_lt_length h b rb hb
    have hab : a ≠ b := by
      intro e
      subst e
      simp at hnd
    have hnd2 : (b :: rest).Nodup := (List.nodup_cons.mp hnd).2
    have hbr : b ∉ rest := (List.nodup_cons.mp hnd2).1
    let h1 : Heap := h.set b (some { rb with nextPrintingRead := some a })
    have hd1 : ∀ q, deref h1 q
        = if b = q then some { rb with nextPrintingRead := some a } else deref h q :=
      fun q => deref_set h b q _ hblt
    have hlive1 : ∀ p, p ∈ b :: rest → deref h1 p ≠ none := by
      intro p hp
      rw [hd1]
      by_cases e : b = p
      · simp [e]
      · simp only [e, if_false]
        exact hlive p (List.mem_cons_of_mem _ hp)
    obtain ⟨h3, hs, hl, hstrip, hout, hlink⟩ := setPrintReverse_spec (b :: rest) h1 hlive1 hnd2
    refine ⟨h3, ?_, ?_, ?_, ?_, ?_⟩
    · simp only [setPrintReverse, setNextPrintRead_eq h b (some a) rb hb]
      exact hs
    · rw [hl]
      simp [h1]
    · intro q
      rw [hstrip q, hd1]
      by_cases e : b = q
      · subst e
        simp [hb, withoutPrintLink]
      · simp [e]
    · intro q hq
      have hq1 : q ≠ b := fun e => hq (by simp [e])
      have hq2 : q ∉ rest := fun e => hq (by simp [e])
      rw [hout q (by simpa using hq2), hd1]
      simp [Ne.symm hq1]
    · intro i hi
      cases i with
      | zero =>
        have : deref h3 b = some { rb with nextPrintingRead := some a } := by
          rw [hout b (by simpa using hbr), hd1]
          simp
        simp [getNextPrintRead, this]
      | succ j =>
        have := hlink j (by simpa using hi)
        simpa using this

theorem walkChain_backwards (next : Heap → Ptr → Option (Option Ptr)) (h : Heap)
    (ps : List Ptr) (h0 : ∀ hp : 0 < ps.length, next h (ps.get ⟨0, hp⟩) = some none)
    (hlink : ∀ i (hi : i + 1 < ps.length),
      next h (ps.get ⟨i + 1, hi⟩) = some (some (ps.get ⟨i, Nat.lt_of_succ_lt hi⟩))) :
    ∀ (i : Nat) (hi : i < ps.length) (fuel : Nat), i + 1 ≤ fuel →
      walkChain next h fuel (some (ps.get ⟨i, hi⟩)) = some (ps.take (i + 1)).reverse := by
  intro i
  induction i with
  | zero =>
    intro hi fuel hf
    obtain ⟨g, rfl⟩ : ∃ g, fuel = g + 1 := ⟨fuel - 1, by omega⟩
    have e : ps.take 1 = [ps.get ⟨0, hi⟩] := by
      cases ps with
      | nil => simp at hi
      | cons x xs => rfl
    simp only [walkChain, h0 hi, walkChain_none, e, Option.map_some', List.reverse_singleton]
  | succ j ih =>
    intro hi fuel hf
    obtain ⟨g, rfl⟩ : ∃ g, fuel = g + 1 := ⟨fuel - 1, by omega⟩
    have hj : j < ps.length := Nat.lt_of_succ_lt hi
    have e : ps.take (j + 1 + 1) = ps.take (j + 1) ++ [ps.get ⟨j + 1, hi⟩] := by
      rw [List.take_succ, List.getElem?_eq_getElem hi]
      rfl
    simp only [walkChain, hlink j hi, ih hj g (by omega), Option.map_some', e,
      List.reverse_append, List.reverse_singleton, List.singleton_append]

/-- C11. For every store and every run of N >= 2 chained `makeMappedRead`
calls returning r1..rN, after `setNextPrintRead(r(i+1), r(i))` for i = 1..N-1,
walking with `getNextPrintRead` from rN visits rN, .., r1 and then the null
pointer, while walking with `getNextMappedRead` from r1 still visits r1, .., rN;
the two orders differ, neither repeats a record, and both enumerate the same
N records. -/
theorem print_chain_reverse_of_ingestion (h : Heap) (args : List ReadArgs)
    (hN : 2 ≤ args.length) :
    ∃ h2 ps h3,
      makeChain h none args = some (h2, ps)
      ∧ setPrintReverse h2 ps = some h3
      ∧ ps.length = args.length
      ∧ (∀ fuel, args.length ≤ fuel →
          walkChain getNextPrintRead h3 fuel ps.getLast? = some ps.reverse)
      ∧ (∀ fuel, args.length ≤ fuel →
          walkChain getNextMappedRead h3 fuel ps.head? = some ps)
      ∧ ps.reverse ≠ ps
      ∧ ps.Nodup ∧ ps.reverse.Nodup
      ∧ (∀ p, p ∈ ps.reverse ↔ p ∈ ps) := by
  have hne : args ≠ [] := by
    intro e
    subst e
    simp at hN
  have hmk := makeChain_no_prev h args
  have hnd : (List.range' h.length args.length).Nodup := List.nodup_range' _ _
  have hlen : (List.range' h.length args.length).length = args.length := by simp
  have hget : ∀ i (hi : i < (List.range' h.length args.length).length),
      (List.range' h.length args.length).get ⟨i, hi⟩ = h.length + i := by
    intro i hi
    simp
  have hlive : ∀ p, p ∈ List.range' h.length args.length →
      deref (h ++ chainCells h.length args) p ≠ none := by
    intro p hp
    obtain ⟨hp1, hp2⟩ := List.mem_range'_1.mp hp
    have hpi : p = h.length + (p - h.length) := (Nat.add_sub_cancel' hp1).symm
    have hi : p - h.length < args.length := Nat.sub_lt_left_of_lt_add hp1 hp2
    rw [hpi, deref_chainCells h args _ hi]
    simp
  obtain ⟨h3, hs, -, hstrip, hout, hlink⟩ :=
    setPrintReverse_spec _ (h ++ chainCells h.length args) hlive hnd
  have hwalk0 : ∀ fuel, args.length ≤ fuel →
      walkChain getNextMappedRead (h ++ chainCells h.length args) fuel
        (List.range' h.length args.length).head? = some (List.range' h.length args.length) := by
    intro fuel hf
    have := walkChain_chainCells h args args.length 0 fuel (by omega) hf
    have hpos : 0 < args.length := by omega
    simp only [hpos, if_true, Nat.add_zero] at this
    rw [← this]
    congr 1
    rw [List.head?_range']
    simp [Nat.ne_of_gt hpos]
  refine ⟨_, _, h3, hmk, hs, hlen, ?_, ?_, ?_, hnd, List.nodup_reverse.mpr hnd,
    fun p => List.mem_reverse⟩
  · intro fuel hf
    have hlast : args.length - 1 < (List.range' h.length args.length).length := by
      rw [hlen]; omega
    have h0 : ∀ hp : 0 < (List.range' h.length args.length).length,
        getNextPrintRead h3 ((List.range' h.length args.length).get ⟨0, hp⟩) = some none := by
      intro hp
      have hnt : (List.range' h.length args.length).get ⟨0, hp⟩
          ∉ (List.range' h.length args.length).tail := by
        rw [hget 0 hp]
        intro hm
        simp [List.tail_range'] at hm
      rw [getNextPrintRead, hout _ hnt, hget 0 hp,
        deref_chainCells h args 0 (by omega)]
      rfl
    have hw := walkChain_backwards getNextPrintRead h3 _ h0 hlink (args.length - 1) hlast
      fuel (by omega)
    have e1 : (List.range' h.length args.length).getLast?
        = some ((List.range' h.length args.length).get ⟨args.length - 1, hlast⟩) := by
      rw [hget, List.getLast?_range']
      have hpos : args.length ≠ 0 := by omega
      simp only [hpos, if_false, Option.some.injEq]
      omega
    have e2 : (List.range' h.length args.length).take (args.length - 1 + 1)
        = List.range' h.length args.length := by
      apply List.take_of_length_le
      rw [hlen]; omega
    rw [e1, hw, e2]
  · intro fuel hf
    refine walkChain_congr getNextMappedRead _ h3 fuel _ _ (hwalk0 fuel hf) ?_
    intro q _
    have key : ∀ hh : Heap, getNextMappedRead hh q
        = ((deref hh q).map withoutPrintLink).map (fun r => r.nextRead) := by
      intro hh
      simp only [getNextMappedRead]
      cases deref hh q <;> rfl
    rw [key h3, key (h ++ chainCells h.length args), hstrip q]
  · intro e
    have h1 : (List.range' h.length args.length).reverse.head?
        = (List.range' h.length args.length).head? := by rw [e]
    rw [List.head?_reverse, List.getLast?_range', List.head?_range'] at h1
    have hpos : args.length ≠ 0 := by omega
    simp only [hpos, if_false, Option.some.injEq] at h1
    omega

/-- Witness for C11: two records on the empty store. -/
theorem print_chain_reverse_of_ingestion_witness :
    2 ≤ exArgs.length
    ∧ ∃ h2 h3,
      makeChain [] none exArgs = some (h2, [0, 1])
      ∧ setPrintReverse h2 [0, 1] = some h3
      ∧ walkChain getNextPrintRead h3 2 (some 1) = some [1, 0]
      ∧ walkChain getNextMappedRead h3 2 (some 0) = some [0, 1] := by
  refine ⟨by decide, ?_⟩
  obtain ⟨h2, ps, h3, hmk, hs, -, hp, hi, -⟩ :=
    print_chain_reverse_of_ingestion [] exArgs (by decide)
  have e : (makeChain [] none exArgs).map (fun x => x.2) = some [0, 1] := by decide
  rw [hmk] at e
  simp only [Option.map_some', Option.some.injEq] at e
  subst e
  exact ⟨h2, h3, hmk, hs, hp 2 (by decide), hi 2 (by decide)⟩

/-! ## Header-only rendering -/

/-- C12. For every two live records with the same sequence id and role code,
every group name, output mode and nonzero `headerOnly`, `printMappedRead`
gives the same result for both, and so does `sprintMappedRead` into the same
buffer, whatever their sequences and qualities are: a header-only rendering
does not depend on sequence or quality. -/
theorem header_only_ignores_sequence_quality (F : Formats) (h1 h2 : Heap) (MR1 MR2 : Ptr)
    (r1 r2 : BM_mappedRead) (hd1 : deref h1 MR1 = some r1) (hd2 : deref h2 MR2 = some r2)
    (hid : r1.seqId = r2.seqId) (hrpi : r1.rpi = r2.rpi) (f : Option FILE) (groupName : CStr)
    (headerOnly pairedOutput : Int) (hh : headerOnly ≠ 0) :
    printMappedRead F h1 MR1 f groupName headerOnly pairedOutput
        = printMappedRead F h2 MR2 f groupName headerOnly pairedOutput
    ∧ (∀ buffer, sprintMappedRead F h1 MR1 buffer groupName headerOnly pairedOutput
        = sprintMappedRead F h2 MR2 buffer groupName headerOnly pairedOutput)
    ∧ (∀ MI_buffer, getMITEXT (r1.rpi.val : Int) pairedOutput MI_buffer0 = some MI_buffer →
        printMappedRead F h1 MR1 f groupName headerOnly pairedOutput
          = (cformat F.HEADER_FORMAT
              [Arg.str (some groupName), Arg.str (some (cstr MI_buffer)),
               Arg.str (some r1.seqId)]).map fun t => (f.getD FILE.stdout, t)) := by
  have hf : (match f with | none => FILE.stdout | some s => s) = f.getD FILE.stdout := by
    cases f <;> rfl
  refine ⟨?_, ?_, ?_⟩
  · simp only [printMappedRead, hd1, hd2, hid, hrpi, hh, ne_eq, not_false_eq_true, if_true]
  · intro buffer
    simp only [sprintMappedRead, hd1, hd2, hid, hrpi, hh, ne_eq, not_false_eq_true, if_true]
  · intro MI hMI
    simp only [printMappedRead, hd1, hMI, hh, hf, ne_eq, not_false_eq_true, if_true]

/-- Witness for C12: the example record with and without its sequence and
quality, header-only, gives the same header line. -/
theorem header_only_ignores_sequence_quality_witness :
    (exRead.seqId = exReadNoSeq.seqId ∧ exRead.rpi = exReadNoSeq.rpi ∧ (1 : Int) ≠ 0)
    ∧ printMappedRead (specFormats '>') [some exRead] 0 none "g".toList 1 1
        = printMappedRead (specFormats '>') [some exReadNoSeq] 0 none "g".toList 1 1
    ∧ printMappedRead (specFormats '>') [some exReadNoSeq] 0 none "g".toList 1 1
        = some (FILE.stdout, ">g;p_PR_PM_PG;r1\n".toList) := by
  refine ⟨⟨rfl, rfl, by decide⟩, ?_, by decide⟩
  exact (header_only_ignores_sequence_quality (specFormats '>') [some exRead] [some exReadNoSeq] 0 0
    exRead exReadNoSeq rfl rfl rfl rfl none "g".toList 1 1 (by decide)).1

/-! ## The chain renderer against the single-record renderer -/

theorem nodeHeader_eq_print (F : Formats) (h : Heap) (p : Ptr) (r : BM_mappedRead)
    (hd : deref h p = some r) (f : Option FILE) (groupNames : List CStr)
    (headerOnly pairedOutput : Int) (hh : headerOnly ≠ 0) :
    nodeHeader F groupNames pairedOutput r
      = (groupNames[r.group.val]?).bind fun g =>
          (printMappedRead F h p f g headerOnly pairedOutput).map fun x => x.2 := by
  simp only [nodeHeader, printMappedRead, hd, hh, ne_eq, not_false_eq_true, if_true]
  cases getMITEXT (r.rpi.val : Int) pairedOutput MI_buffer0 with
  | none => cases groupNames[r.group.val]? <;> rfl
  | some MI =>
    cases groupNames[r.group.val]? with
    | none => rfl
    | some g => simp [Option.map_map, Function.comp_def]

theorem nodeFasta_eq_print (F : Formats) (h : Heap) (p : Ptr) (r : BM_mappedRead)
    (hd : deref h p = some r) (hq : r.qual = none) (f : Option FILE) (groupNames : List CStr)
    (pairedOutput : Int) :
    nodeFasta F groupNames pairedOutput r
      = (groupNames[r.group.val]?).bind fun g =>
          (printMappedRead F h p f g 0 pairedOutput).map fun x => x.2 := by
  simp only [nodeFasta, printMappedRead, hd, hq, ne_eq, not_true_eq_false, if_false]
  cases getMITEXT (r.rpi.val : Int) pairedOutput MI_buffer0 with
  | none => cases groupNames[r.group.val]? <;> rfl
  | some MI =>
    cases groupNames[r.group.val]? with
    | none => rfl
    | some g => simp [Option.map_map, Function.comp_def]

theorem nodeFastq_eq_print (F : Formats) (h : Heap) (p : Ptr) (r : BM_mappedRead)
    (hd : deref h p = some r) (q : CStr) (hq : r.qual = some q) (f : Option FILE)
    (groupNames : List CStr) (pairedOutput : Int) :
    nodeFastq F groupNames pairedOutput r
      = (groupNames[r.group.val]?).bind fun g =>
          (printMappedRead F h p f g 0 pairedOutput).map fun x => x.2 := by
  simp only [nodeFastq, printMappedRead, hd, hq, ne_eq, not_true_eq_false, if_false]
  cases getMITEXT (r.rpi.val : Int) pairedOutput MI_buffer0 with
  | none => cases groupNames[r.group.val]? <;> rfl
  | some MI =>
    cases groupNames[r.group.val]? with
    | none => rfl
    | some g => simp [Option.map_map, Function.comp_def]

theorem map_deref_bind_congr (h : Heap) (ps : List Ptr)
    (a b : Ptr → BM_mappedRead → Option CStr)
    (hab : ∀ p r, p ∈ ps → deref h p = some r → a p r = b p r) :
    (ps.map fun p => (deref h p).bind (a p)) = ps.map fun p => (deref h p).bind (b p) := by
  apply List.map_congr_left
  intro p hp
  cases hd : deref h p with
  | none => rfl
  | some r => simp [hab p r hp hd]

/-- C13. For every non-empty ingestion chain, group-name table and output
mode, if `headersOnly` is nonzero or the quality of every node is present
exactly when the quality of the head is, the text `printMappedReads` writes is
the concatenation, in ingestion order, of the texts `printMappedRead` writes
for each node with group name `groupNames[node.group]` and the same
`headerOnly` and mode (undefined exactly when one of these is, a group outside
the table included), and it goes to the same stream. -/
theorem printMappedReads_concat_of_nodes (F : Formats) (h : Heap) (MR0 : Ptr)
    (r0 : BM_mappedRead) (ps : List Ptr) (fuel : Nat) (hhead : deref h MR0 = some r0)
    (hwalk : walkChain getNextMappedRead h fuel (some MR0) = some ps)
    (f : Option FILE) (groupNames : List CStr) (headersOnly pairedOutput : Int)
    (hshape : headersOnly ≠ 0
      ∨ ∀ p r, p ∈ ps → deref h p = some r → (r.qual = none ↔ r0.qual = none)) :
    printMappedReads F fuel h (some MR0) f groupNames headersOnly pairedOutput
      = (concatTexts (ps.map fun p => (deref h p).bind fun r =>
          (groupNames[r.group.val]?).bind fun g =>
            (printMappedRead F h p f g headersOnly pairedOutput).map fun x => x.2)).map
          fun t => (f.getD FILE.stdout, t) := by
  have hf : (match f with | none => FILE.stdout | some s => s) = f.getD FILE.stdout := by
    cases f <;> rfl
  by_cases hh : headersOnly = 0
  · subst hh
    have hsh : ∀ p r, p ∈ ps → deref h p = some r → (r.qual = none ↔ r0.qual = none) := by
      rcases hshape with h0 | h1
      · exact absurd rfl h0
      · exact h1
    cases hq0 : r0.qual with
    | none =>
      simp only [printMappedReads, hhead, hq0, hf, ne_eq, not_true_eq_false, if_false]
      rw [printMappedReads_fasta_walk F groupNames pairedOutput h fuel (some MR0) MI_buffer0 ps
        (by decide) hwalk]
      rw [map_deref_bind_congr h ps (fun _ => nodeFasta F groupNames pairedOutput) _
        (fun p r hp hd =>
        nodeFasta_eq_print F h p r hd ((hsh p r hp hd).mpr hq0) f groupNames pairedOutput)]
    | some q0 =>
      simp only [printMappedReads, hhead, hq0, hf, ne_eq, not_true_eq_false, if_false]
      rw [printMappedReads_fastq_walk F groupNames pairedOutput h fuel (some MR0) MI_buffer0 ps
        (by decide) hwalk]
      have hsome : ∀ p r, p ∈ ps → deref h p = some r → ∃ q, r.qual = some q := by
        intro p r hp hd
        apply Option.ne_none_iff_exists'.mp
        intro hn
        have := (hsh p r hp hd).mp hn
        rw [hq0] at this
        cases this
      rw [map_deref_bind_congr h ps (fun _ => nodeFastq F groupNames pairedOutput) _
        (fun p r hp hd => by
        obtain ⟨q, hq⟩ := hsome p r hp hd
        exact nodeFastq_eq_print F h p r hd q hq f groupNames pairedOutput)]
  · simp only [printMappedReads, hf, hh, ne_eq, not_false_eq_true, if_true]
    rw [printMappedReads_headers_walk F groupNames pairedOutput h fuel (some MR0) MI_buffer0 ps
      (by decide) hwalk]
    rw [map_deref_bind_congr h ps (fun _ => nodeHeader F groupNames pairedOutput) _
      (fun p r _ hd =>
      nodeHeader_eq_print F h p r hd f groupNames headersOnly pairedOutput hh)]

/-- Witness for C13: a chain of mixed quality rendered header-only. -/
theorem printMappedReads_concat_of_nodes_witness :
    (deref exChainFastaHead 0 = some { exReadNoQual with nextRead := some 1 }
      ∧ walkChain getNextMappedRead exChainFastaHead 2 (some 0) = some [0, 1]
      ∧ (1 : Int) ≠ 0)
    ∧ printMappedReads (specFormats '>') 2 exChainFastaHead (some 0) none ["g".toList] 1 1
        = some (FILE.stdout, ">g;p_PR_PM_PG;r1\n>g;p_PR_PM_PG;r2\n".toList) := by
  refine ⟨⟨rfl, rfl, by decide⟩, ?_⟩
  rw [printMappedReads_concat_of_nodes (specFormats '>') exChainFastaHead 0 _ [0, 1] 2 rfl rfl none
    ["g".toList] 1 1 (Or.inl (by decide))]
  decide

/-! ## The form of the table entries -/

theorem MITEXT_shape :
    MITEXT.length = 6
    ∧ ∀ row, row ∈ MITEXT → row.length = 2
      ∧ ∀ e, e ∈ row → e.length = 12 ∧ isTagEntry e ∧ e[11]? = some NUL
        ∧ ∀ c, c ∈ e.take 11 → printable c := by
  decide

theorem MITEXT_row_form : ∀ (v : Fin 6) (m : Fin 2),
    isTagEntry (MITEXT_row (v.val : Int) (m.val : Int))
    ∧ (MITEXT_row (v.val : Int) (m.val : Int))[11]? = some NUL
    ∧ (∀ c, c ∈ (MITEXT_row (v.val : Int) (m.val : Int)).take 11 → printable c ∧ c ≠ NUL) := by
  decide

theorem cstr_append_of_terminated (t : List Char) (rest : List Char)
    (hlast : t[11]? = some NUL) (hlen : t.length = 12)
    (hpre : ∀ c, c ∈ t.take 11 → c ≠ NUL) :
    cstr (t ++ rest) = t.take 11 := by
  have ht : t = t.take 11 ++ [NUL] := by
    have h1 : t = t.take 11 ++ t.drop 11 := (List.take_append_drop 11 t).symm
    have h2 : t.drop 11 = [NUL] := by
      have hlt : 11 < t.length := by omega
      rw [List.drop_eq_getElem_cons hlt]
      rw [List.getElem?_eq_getElem hlt] at hlast
      have : t.drop 12 = [] := List.drop_eq_nil_of_le (by omega)
      simp only [Option.some.injEq] at hlast
      simp [hlast, this]
    rw [h2] at h1
    exact h1
  have hw : ∀ (l : List Char), (∀ c, c ∈ l → c ≠ NUL) →
      List.takeWhile (fun c => c != NUL) (l ++ NUL :: rest) = l := by
    intro l
    induction l with
    | nil => intro _; simp [List.takeWhile]
    | cons x xs ih =>
      intro hx
      have hxn : (x != NUL) = true := bne_iff_ne.mpr (hx x (List.mem_cons_self _ _))
      simp only [List.cons_append, List.takeWhile_cons, hxn, if_true,
        ih (fun c hc => hx c (List.mem_cons_of_mem _ hc))]
  have e : cstr (t ++ rest) = cstr ((t.take 11 ++ [NUL]) ++ rest) := by rw [← ht]
  rw [e, List.append_assoc]
  simp only [List.singleton_append, cstr]
  exact hw _ hpre

/-- C14. The classification table has 6 rows of 2 entries; every entry is
twelve bytes, eleven printable characters of the form `p_aR_bM_cG;` (`a` one
of P, U, E; `b` and `c` each one of N, P, U, E) followed by the terminator; and
for every role code 0..5 and mode 0 or 1 `getMITEXT` copies all twelve bytes
of the entry into the first twelve bytes of the buffer, which then holds a
terminated string of eleven printable characters. -/
theorem MITEXT_entries_terminated (rpi paired : Int) (hr : 0 ≤ rpi ∧ rpi ≤ 5)
    (hm : paired = 0 ∨ paired = 1) (buffer : List Char) (hb : 12 ≤ buffer.length) :
    (MITEXT.length = 6
      ∧ ∀ row, row ∈ MITEXT → row.length = 2
        ∧ ∀ e, e ∈ row → e.length = 12 ∧ isTagEntry e ∧ e[11]? = some NUL
          ∧ ∀ c, c ∈ e.take 11 → printable c)
    ∧ ∃ b2, getMITEXT rpi paired buffer = some b2
      ∧ b2.take 12 = MITEXT_row rpi paired
      ∧ b2.drop 12 = buffer.drop 12
      ∧ isTagEntry (b2.take 12)
      ∧ b2[11]? = some NUL
      ∧ cstr b2 = b2.take 11
      ∧ (cstr b2).length = 11
      ∧ ∀ c, c ∈ cstr b2 → printable c := by
  refine ⟨MITEXT_shape, ?_⟩
  obtain ⟨hr0, hr5⟩ := hr
  obtain ⟨n, rfl⟩ := Int.eq_ofNat_of_zero_le hr0
  have hk : ∃ k : Nat, k < 2 ∧ paired = (k : Int) := by
    rcases hm with rfl | rfl
    · exact ⟨0, by decide, rfl⟩
    · exact ⟨1, by decide, rfl⟩
  obtain ⟨k, hk2, rfl⟩ := hk
  have hn : n < 6 := by omega
  obtain ⟨hl, hrow⟩ := MITEXT_row_spec ⟨n, hn⟩ ⟨k, hk2⟩
  obtain ⟨hform, hlast, hprint⟩ := MITEXT_row_form ⟨n, hn⟩ ⟨k, hk2⟩
  simp only at hl hrow hform hlast hprint
  have hget := getMITEXT_loop_row (n : Int) (k : Int) _ hrow hl 12 0 buffer (by omega) hb
  have hget2 : getMITEXT (n : Int) (k : Int) buffer
      = some (MITEXT_row (n : Int) (k : Int) ++ buffer.drop 12) := by
    simpa [getMITEXT] using hget
  have htake12 : (MITEXT_row (n : Int) (k : Int) ++ buffer.drop 12).take 12
      = MITEXT_row (n : Int) (k : Int) := by
    rw [← hl]; simp
  have htake11 : (MITEXT_row (n : Int) (k : Int) ++ buffer.drop 12).take 11
      = (MITEXT_row (n : Int) (k : Int)).take 11 := by
    rw [List.take_append_of_le_length (by omega)]
  have hcstr := cstr_append_of_terminated (MITEXT_row (n : Int) (k : Int)) (buffer.drop 12)
    hlast hl (fun c hc => (hprint c hc).2)
  refine ⟨_, hget2, htake12, ?_, ?_, ?_, ?_, ?_, ?_⟩
  · rw [← hl]; simp
  · rw [htake12]; exact hform
  · rw [List.getElem?_append_left (by omega)]; exact hlast
  · rw [hcstr, htake11]
  · rw [hcstr]; simp [hl]
  · intro c hc
    rw [hcstr] at hc
    exact (hprint c hc).1

/-- Witness for C14: role 4, paired mode, into the twelve zero bytes. -/
theorem MITEXT_entries_terminated_witness :
    ((0 : Int) ≤ 4 ∧ (4 : Int) ≤ 5) ∧ 12 ≤ MI_buffer0.length
    ∧ ∃ b2, getMITEXT 4 1 MI_buffer0 = some b2
      ∧ b2.take 12 = "p_UR_EM_NG;\x00".toList ∧ (cstr b2).length = 11 := by
  refine ⟨by decide, by decide, ?_⟩
  obtain ⟨-, b2, h1, h2, -, -, -, -, h7, -⟩ :=
    MITEXT_entries_terminated 4 1 (by decide) (Or.inr rfl) MI_buffer0 (by decide)
  exact ⟨b2, h1, h2, h7⟩

/-! ## Partner present -/

/-- C15. For every live record whose partner is present (a live record),
`getPartner` returns that partner, silently, and `partnerInSameGroup` returns
1 when the group of the partner equals the group of the record and 0
otherwise; so for every live record whose partner is absent or live,
`partnerInSameGroup` returns a nonzero value exactly when a partner is present
and its group equals the group of the holder. -/
theorem partner_present (h : Heap) (MR : Ptr) (r : BM_mappedRead)
    (hd : deref h MR = some r)
    (hlive : ∀ p, r.partnerRead = some p → deref h p ≠ none) :
    (∀ p pr, r.partnerRead = some p → deref h p = some pr →
      getPartner h MR = some (some p, [])
      ∧ partnerInSameGroup h MR = some (if pr.group = r.group then 1 else 0, [])
      ∧ ((∃ v out, partnerInSameGroup h MR = some (v, out) ∧ v ≠ 0) ↔ pr.group = r.group))
    ∧ ∃ v out, partnerInSameGroup h MR = some (v, out)
        ∧ (v ≠ 0 ↔ ∃ p pr, r.partnerRead = some p ∧ deref h p = some pr
            ∧ pr.group = r.group) := by
  have hpres : ∀ p pr, r.partnerRead = some p → deref h p = some pr →
      partnerInSameGroup h MR = some (if pr.group = r.group then 1 else 0, []) := by
    intro p pr hp hpr
    simp only [partnerInSameGroup, hd, hp, hpr]
  constructor
  · intro p pr hp hpr
    refine ⟨by simp only [getPartner, hd, hp], hpres p pr hp hpr, ?_⟩
    rw [hpres p pr hp hpr]
    constructor
    · rintro ⟨v, out, hv, hne⟩
      simp only [Option.some.injEq, Prod.mk.injEq] at hv
      by_contra hg
      rw [if_neg hg] at hv
      exact hne hv.1.symm
    · intro hg
      exact ⟨1, [], by simp [hg], by decide⟩
  · cases hp : r.partnerRead with
    | none =>
      refine ⟨0, "2. nein partner ".toList ++ decimal (r.rpi.val : Int) ++ ['\n'],
        by simp only [partnerInSameGroup, hd, hp, cformat_nein_partner2, Option.map_some'], ?_⟩
      simp
    | some p =>
      obtain ⟨pr, hpr⟩ := Option.ne_none_iff_exists'.mp (hlive p hp)
      refine ⟨_, _, hpres p pr hp hpr, ?_⟩
      constructor
      · intro hne
        refine ⟨p, pr, rfl, hpr, ?_⟩
        by_contra hg
        rw [if_neg hg] at hne
        exact hne rfl
      · rintro ⟨p2, pr2, hp2, hpr2, hg⟩
        cases hp2
        rw [hpr] at hpr2
        cases hpr2
        simp [hg]

/-- Witness for C15: record 0 has its partner 1 in its own group, record 2 has
its partner 0 in another group. -/
theorem partner_present_witness :
    deref exPartners 0 = some { exRead with partnerRead := some 1 }
    ∧ getPartner exPartners 0 = some (some 1, [])
    ∧ partnerInSameGroup exPartners 0 = some (1, [])
    ∧ partnerInSameGroup exPartners 2 = some (0, []) := by
  have h0 := (partner_present exPartners 0 { exRead with partnerRead := some 1 } rfl
    (by decide)).1 1 { exRead with seqId := "r2".toList, partnerRead := some 0 } rfl rfl
  exact ⟨rfl, h0.1, h0.2.1, by decide⟩

/-! ## Setting the print successor -/

/-- C16. For every store, every live record `b` and every target `t` (a
pointer or null), `setNextPrintRead(b, t)` succeeds; afterwards
`getNextPrintRead(b)` returns `t`, whatever print successor `b` had; the record
of `b` is as before in every other field (ingestion successor, partner, strings
and scalars), every other cell of the store is as before, and
`getNextMappedRead` returns for every address what it returned before. The
other accessors and the renderers return no store: they write nothing. -/
theorem setNextPrintRead_frame (h : Heap) (b : Ptr) (r : BM_mappedRead) (t : Option Ptr)
    (hd : deref h b = some r) :
    ∃ h2, setNextPrintRead h b t = some h2
      ∧ getNextPrintRead h2 b = some t
      ∧ deref h2 b = some { r with nextPrintingRead := t }
      ∧ h2.length = h.length
      ∧ (∀ q, q ≠ b → h2[q]? = h[q]?)
      ∧ (∀ q, getNextMappedRead h2 q = getNextMappedRead h q)
      ∧ (∀ q, (deref h2 q).map withoutPrintLink = (deref h q).map withoutPrintLink) := by
  have hlt := deref_lt_length h b r hd
  have hd2 : ∀ q, deref (h.set b (some { r with nextPrintingRead := t })) q
      = if b = q then some { r with nextPrintingRead := t } else deref h q :=
    fun q => deref_set h b q _ hlt
  refine ⟨_, setNextPrintRead_eq h b t r hd, ?_, ?_, by simp, ?_, ?_, ?_⟩
  · simp [getNextPrintRead, hd2]
  · simp [hd2]
  · intro q hq
    exact List.getElem?_set_ne (Ne.symm hq)
  · intro q
    simp only [getNextMappedRead, hd2]
    by_cases e : b = q
    · subst e
      simp [hd]
    · simp [e]
  · intro q
    rw [hd2]
    by_cases e : b = q
    · subst e
      simp [hd, withoutPrintLink]
    · simp [e]

/-- Witness for C16: record 3 of the two-chain store, whose print successor
is record 2, is given record 0 instead. -/
theorem setNextPrintRead_frame_witness :
    getNextPrintRead exTwoChains 3 = some (some 2)
    ∧ ∃ h2, setNextPrintRead exTwoChains 3 (some 0) = some h2
      ∧ getNextPrintRead h2 3 = some (some 0)
      ∧ h2[0]? = exTwoChains[0]?
      ∧ getNextMappedRead h2 0 = some (some 1) := by
  obtain ⟨h2, h1, hp, -, -, hfr, hnx, -⟩ :=
    setNextPrintRead_frame exTwoChains 3
      { exReadNoQual with seqId := "r4".toList, nextPrintingRead := some 2 } (some 0) rfl
  exact ⟨by decide, h2, h1, hp, hfr 0 (by decide), by rw [hnx 0]; decide⟩

/-! ## The output mode as a column index -/

/-- C18. On the empty chain (null head) `printMappedReads` is defined exactly
when `headersOnly` is nonzero, and then it writes nothing: with `headersOnly`
zero the quality of the head is read before any test of the head, which is
undefined for a null head. -/
theorem printMappedReads_empty_chain (F : Formats) (fuel : Nat) (h : Heap) (f : Option FILE)
    (groupNames : List CStr) (headersOnly pairedOutput : Int) :
    ((∃ x, printMappedReads F fuel h none f groupNames headersOnly pairedOutput = some x)
        ↔ headersOnly ≠ 0)
    ∧ (headersOnly ≠ 0 →
        printMappedReads F fuel h none f groupNames headersOnly pairedOutput
          = some (f.getD FILE.stdout, []))
    ∧ (headersOnly = 0 →
        printMappedReads F fuel h none f groupNames headersOnly pairedOutput = none) := by
  have hf : (match f with | none => FILE.stdout | some s => s) = f.getD FILE.stdout := by
    cases f <;> rfl
  have h1 : headersOnly ≠ 0 →
      printMappedReads F fuel h none f groupNames headersOnly pairedOutput
        = some (f.getD FILE.stdout, []) := by
    intro hh
    cases fuel <;> simp [printMappedReads, hh, hf, printMappedReads_headers]
  have h2 : headersOnly = 0 →
      printMappedReads F fuel h none f groupNames headersOnly pairedOutput = none := by
    intro hh
    simp [printMappedReads, hh]
  refine ⟨?_, h1, h2⟩
  constructor
  · rintro ⟨x, hx⟩ hh
    rw [h2 hh] at hx
    cases hx
  · intro hh
    exact ⟨_, h1 hh⟩

/-- Witness for C18: the empty chain with `headersOnly` 1 and 0. -/
theorem printMappedReads_empty_chain_witness :
    printMappedReads (specFormats '>') 0 [] none none [] 1 0 = some (FILE.stdout, [])
    ∧ printMappedReads (specFormats '>') 0 [] none none [] 0 0 = none :=
  ⟨(printMappedReads_empty_chain (specFormats '>') 0 [] none [] 1 0).2.1 (by decide),
    (printMappedReads_empty_chain (specFormats '>') 0 [] none [] 0 0).2.2 rfl⟩

/-! ## The sequence is never tested -/

/-- C19 (amended). For every live record with role code in 0..5 and mode in
{0, 1}, rendering with `headerOnly` zero chooses the format from the quality
alone and hands the sequence pointer to the format as it is, null or not, in
`printMappedRead` and in `sprintMappedRead` alike (for any format macros). With
the formats of the spec both renderers therefore produce a FASTA or FASTQ text
whether or not the sequence is present: its sequence line is the sequence of
the record when that is present and `(null)`, what `%s` prints for a null
pointer, when it is absent. Header-only rendering does not involve the
sequence. -/
theorem sequence_never_tested (h : Heap) (MR : Ptr) (r : BM_mappedRead)
    (hd : deref h MR = some r) (hrpi : r.rpi.val ≤ 5) (f : Option FILE) (groupName : CStr)
    (pairedOutput : Int) (hm : pairedOutput = 0 ∨ pairedOutput = 1) :
    ∃ MI_buffer, getMITEXT (r.rpi.val : Int) pairedOutput MI_buffer0 = some MI_buffer
      ∧ (∀ F : Formats,
          printMappedRead F h MR f groupName 0 pairedOutput
            = (match r.qual with
               | some q =>
                 cformat F.FASTQ_FORMAT
                   [Arg.str (some groupName), Arg.str (some (cstr MI_buffer)),
                    Arg.str (some r.seqId), Arg.str r.seq, Arg.str (some q)]
               | none =>
                 cformat F.FASTA_FORMAT
                   [Arg.str (some groupName), Arg.str (some (cstr MI_buffer)),
                    Arg.str (some r.seqId), Arg.str r.seq]).map
                fun t => (f.getD FILE.stdout, t))
      ∧ (∀ (F : Formats) (buffer : List Char),
          sprintMappedRead F h MR buffer groupName 0 pairedOutput
            = match r.qual with
              | some q =>
                sprintf buffer F.FASTQ_FORMAT
                  [Arg.str (some groupName), Arg.str (some (cstr MI_buffer)),
                   Arg.str (some r.seqId), Arg.str r.seq, Arg.str (some q)]
              | none =>
                sprintf buffer F.FASTA_FORMAT
                  [Arg.str (some groupName), Arg.str (some (cstr MI_buffer)),
                   Arg.str (some r.seqId), Arg.str r.seq])
      ∧ (∀ mark : Char, mark = '>' ∨ mark = '@' →
          ∃ text,
            printMappedRead (specFormats mark) h MR f groupName 0 pairedOutput
                = some (f.getD FILE.stdout, text)
            ∧ (∀ buffer : List Char, text.length < buffer.length →
                sprintMappedRead (specFormats mark) h MR buffer groupName 0 pairedOutput
                  = some (text ++ NUL :: buffer.drop (text.length + 1), (text.length : Int)))
            ∧ text
                = (match r.qual with
                   | some q =>
                     '@' :: groupName ++ ';' :: cstr MI_buffer ++ r.seqId
                       ++ '\n' :: printedString r.seq ++ '\n' :: '+' :: '\n' :: q ++ ['\n']
                   | none =>
                     '>' :: groupName ++ ';' :: cstr MI_buffer ++ r.seqId
                       ++ '\n' :: printedString r.seq ++ ['\n'])
            ∧ (∀ s, r.seq = some s → printedString r.seq = s)
            ∧ (r.seq = none → printedString r.seq = "(null)".toList)
            ∧ (∀ headerOnly, headerOnly ≠ 0 →
                printMappedRead (specFormats mark) h MR f groupName headerOnly pairedOutput
                  = some (f.getD FILE.stdout,
                      mark :: groupName ++ ';' :: cstr MI_buffer ++ r.seqId ++ ['\n']))) := by
  obtain ⟨MI, hMI⟩ := getMITEXT_defined r.rpi.val hrpi pairedOutput hm
  have hsel := fun F : Formats =>
    render_selection F h MR r hd f groupName 0 pairedOutput MI hMI
  have hselH := fun (mark : Char) (ho : Int) =>
    (render_selection (specFormats mark) h MR r hd f groupName ho pairedOutput MI hMI).1
  refine ⟨MI, hMI, ?_, ?_, ?_⟩
  · intro F
    obtain ⟨-, hQ, hA⟩ := hsel F
    cases hq : r.qual with
    | none => exact (hA rfl hq).1
    | some q => exact (hQ rfl q hq).1
  · intro F buffer
    obtain ⟨-, hQ, hA⟩ := hsel F
    cases hq : r.qual with
    | none => exact (hA rfl hq).2 buffer
    | some q => exact (hQ rfl q hq).2 buffer
  · intro mark hmark
    obtain ⟨-, hQ, hA⟩ := hsel (specFormats mark)
    have hhdr : ∀ headerOnly : Int, headerOnly ≠ 0 →
        printMappedRead (specFormats mark) h MR f groupName headerOnly pairedOutput
          = some (f.getD FILE.stdout,
              mark :: groupName ++ ';' :: cstr MI ++ r.seqId ++ ['\n']) := by
      intro ho hh
      have hc := cformat_specHeader mark hmark (some groupName) (some (cstr MI))
        (some r.seqId)
      simp only [printedString_some] at hc
      rw [(hselH mark ho hh).1, hc]
      rfl
    cases hq : r.qual with
    | none =>
      obtain ⟨hp, hsp⟩ := hA rfl hq
      have hc := cformat_specFasta mark (some groupName) (some (cstr MI)) (some r.seqId) r.seq
      simp only [printedString_some] at hc
      refine ⟨'>' :: groupName ++ ';' :: cstr MI ++ r.seqId
          ++ '\n' :: printedString r.seq ++ ['\n'], ?_, ?_, rfl, ?_, ?_, hhdr⟩
      · rw [hp, hc]; rfl
      · intro buffer hb
        rw [hsp buffer]
        exact sprintf_eq _ _ _ _ hc hb
      · intro s hs; rw [hs]; rfl
      · intro hs; rw [hs]; rfl
    | some q =>
      obtain ⟨hp, hsp⟩ := hQ rfl q hq
      have hc := cformat_specFastq mark (some groupName) (some (cstr MI)) (some r.seqId) r.seq
        (some q)
      simp only [printedString_some] at hc
      refine ⟨'@' :: groupName ++ ';' :: cstr MI ++ r.seqId
          ++ '\n' :: printedString r.seq ++ '\n' :: '+' :: '\n' :: q ++ ['\n'],
        ?_, ?_, rfl, ?_, ?_, hhdr⟩
      · rw [hp, hc]; rfl
      · intro buffer hb
        rw [hsp buffer]
        exact sprintf_eq _ _ _ _ hc hb
      · intro s hs; rw [hs]; rfl
      · intro hs; rw [hs]; rfl

/-- Witness for C19: the example record without quality, with and without its
sequence, rendered with `headerOnly` zero. -/
theorem sequence_never_tested_witness :
    (deref [some exReadNoQual] 0 = some exReadNoQual ∧ exReadNoQual.rpi.val ≤ 5)
    ∧ printMappedRead (specFormats '>') [some exReadNoQual] 0 none "g".toList 0 1
        = some (FILE.stdout, ">g;p_PR_PM_PG;r1\nACGT\n".toList)
    ∧ printMappedRead (specFormats '>') [some { exReadNoQual with seq := none }] 0 none
          "g".toList 0 1
        = some (FILE.stdout, ">g;p_PR_PM_PG;r1\n(null)\n".toList) := by
  refine ⟨⟨rfl, by decide⟩, ?_, ?_⟩
  · obtain ⟨MI, hMI, -, -, hspec⟩ :=
      sequence_never_tested [some exReadNoQual] 0 exReadNoQual rfl (by decide) none "g".toList 1
        (Or.inr rfl)
    obtain ⟨text, hp, -, ht, -⟩ := hspec '>' (Or.inl rfl)
    have e : getMITEXT (exReadNoQual.rpi.val : Int) 1 MI_buffer0
        = some "p_PR_PM_PG;\x00".toList := by decide
    have hMI2 : "p_PR_PM_PG;\x00".toList = MI := Option.some.inj (e.symm.trans hMI)
    subst hMI2
    rw [ht] at hp
    exact hp
  · obtain ⟨MI, hMI, -, -, hspec⟩ :=
      sequence_never_tested [some { exReadNoQual with seq := none }] 0
        { exReadNoQual with seq := none } rfl (by decide) none "g".toList 1 (Or.inr rfl)
    obtain ⟨text, hp, -, ht, -⟩ := hspec '>' (Or.inl rfl)
    have e : getMITEXT (({ exReadNoQual with seq := none } : BM_mappedRead).rpi.val : Int) 1
        MI_buffer0 = some "p_PR_PM_PG;\x00".toList := by decide
    have hMI2 : "p_PR_PM_PG;\x00".toList = MI := Option.some.inj (e.symm.trans hMI)
    subst hMI2
    rw [ht] at hp
    exact hp

/-- C19, counterexample. The record that `makeMappedRead` builds from a null
sequence (role 0, quality `!!!!`), rendered with `headerOnly` zero in paired
mode: `printMappedRead` writes a FASTQ text and `sprintMappedRead` stores the
same 31 characters, although the sequence is absent; so a defined text does
not need the sequence, and the record is not rendered header-only only. -/
theorem absent_sequence_still_rendered :
    makeMappedRead [] "r1".toList none (some "!!!!".toList) 2 4 4 0 0 none
        = some ([some exReadNoSeq], 0)
    ∧ exReadNoSeq.seq = none
    ∧ (printMappedRead (specFormats '@') [some exReadNoSeq] 0 none "g".toList 0 1).isSome = true
    ∧ printMappedRead (specFormats '@') [some exReadNoSeq] 0 (some (FILE.stream 3))
          "g".toList 0 1
        = some (FILE.stream 3, "@g;p_PR_PM_PG;r1\n(null)\n+\n!!!!\n".toList)
    ∧ (sprintMappedRead (specFormats '@') [some exReadNoSeq] 0 (List.replicate 40 'x')
          "g".toList 0 1).map (fun x => x.2) = some 31 := by
  decide

end BamRead
